import Mathlib

/-!
Verification development for the rx-table repository: a shallow embedding of
the relational AST compiler (src/RSql/Expression.mts), the expression
interpreter (src/util/rsqlExpressionToFilterFn.mts), the pagination planner
(src/Page.mts) together with the better-sqlite3 storage adapter
(src/storages/better-sqlite3/BetterSqlite3Storage.mts), the reactive Table
(src/Table.mts) and the key partitioner (src/util/partitionByKey.mts).
Machine integers of the host are idealised as rationals, SQL rows as
association lists, and the external SQLite backend as a list-processing
executor modelled from the storage-adapter contract of the spec.
-/

namespace RxTable

/-! ## Expression AST (src/RSql/Expression.mts, lines 3-63) -/

/-- Binary operator kinds of the expression AST (`BinOp.operator`). -/
inductive BinOpKind where
  | eq | ne | lt | le | gt | ge | add | sub | mul | div | pow | and | or
  deriving DecidableEq, Repr

/-- Unary operator kinds of the expression AST (`UnOp.operator`). -/
inductive UnOpKind where
  | neg | pos | not
  deriving DecidableEq, Repr

/-- SQL text of a binary operator, as interpolated by `renderExpressionToSql`. -/
def BinOpKind.toSql : BinOpKind → String
  | .eq => ("=")
  | .ne => ("!=")
  | .lt => ("<")
  | .le => ("<=")
  | .gt => (">")
  | .ge => (">=")
  | .add => ("+")
  | .sub => ("-")
  | .mul => ("*")
  | .div => ("/")
  | .pow => ("^")
  | .and => ("AND")
  | .or => ("OR")

/-- A `Parameterizable` AST node: `Constant` or `Parameter`
(src/RSql/Expression.mts, line 63). `Ctx` is the bind-time context,
`V` the scalar value type. -/
inductive Parameterizable (Ctx V : Type) where
  | constant (value : V)
  | parameter (getValue : Ctx → V)

/-- The expression AST `Expression` (src/RSql/Expression.mts, lines 53-61).
The source kind `"function"` is the constructor `fn`. -/
inductive Expression (Ctx V : Type) where
  | column (name : String)
  | constant (value : V)
  | parameter (getValue : Ctx → V)
  | binOp (operator : BinOpKind) (left right : Expression Ctx V)
  | unOp (operator : UnOpKind) (expression : Expression Ctx V)
  | fn (name : String) (args : List (Expression Ctx V))
  | tuple (expressions : List (Expression Ctx V))
  | asterisk

/-- Resolution of one scheduled parameter at bind time: a Constant contributes
its literal value, a Parameter contributes `getValue ctx`
(src/RSql/Expression.mts, lines 273-276: `p.kind === "constant" ? p.value :
p.getValue(context)`). -/
def resolveParam {Ctx V : Type} (ctx : Ctx) : Parameterizable Ctx V → V
  | .constant v => v
  | .parameter f => f ctx

mutual

/-- Translation of the generator `renderExpressionToSql`
(src/RSql/Expression.mts, lines 105-152).  The generator yields each
`Parameterizable` it meets and receives the placeholder text back; here the
yielded descriptors are accumulated left to right in the first component and
the rendered SQL is the second component.  Unary `NOT` is the only handled
unary operator; unary `+` and `-` fall through every kind test to
`assert.fail`, embedded as `Except.error`. -/
def renderExpressionToSql {Ctx V : Type} :
    Expression Ctx V → Except String (List (Parameterizable Ctx V) × String)
  | .binOp op l r =>
    match renderExpressionToSql l with
    | .error e => .error e
    | .ok (pl, sl) =>
      match renderExpressionToSql r with
      | .error e => .error e
      | .ok (pr, sr) =>
        .ok (pl ++ pr, ("(") ++ sl ++ (" ") ++ op.toSql ++ (" ") ++ sr ++ (")"))
  | .unOp .not e =>
    match renderExpressionToSql e with
    | .error e0 => .error e0
    | .ok (p, s) => .ok (p, ("(NOT ") ++ s ++ (")"))
  | .unOp .neg _ => .error ("Unsupported expression type in renderExpression unOp")
  | .unOp .pos _ => .error ("Unsupported expression type in renderExpression unOp")
  | .column n => .ok ([], n)
  | .constant v => .ok ([Parameterizable.constant v], ("?"))
  | .parameter f => .ok ([Parameterizable.parameter f], ("?"))
  | .fn n args =>
    match renderExpressionListToSql args with
    | .error e => .error e
    | .ok (ps, ss) => .ok (ps, n ++ ("(") ++ String.intercalate (", ") ss ++ (")"))
  | .tuple es =>
    match renderExpressionListToSql es with
    | .error e => .error e
    | .ok (ps, ss) => .ok (ps, ("(") ++ String.intercalate (", ") ss ++ (")"))
  | .asterisk => .ok ([], ("*"))

/-- Rendering of an argument list, mirroring the `for`-loops over `expr.args`
and `expr.expressions` in `renderExpressionToSql`. -/
def renderExpressionListToSql {Ctx V : Type} :
    List (Expression Ctx V) → Except String (List (Parameterizable Ctx V) × List String)
  | [] => .ok ([], [])
  | e :: es =>
    match renderExpressionToSql e with
    | .error e0 => .error e0
    | .ok (p, s) =>
      match renderExpressionListToSql es with
      | .error e0 => .error e0
      | .ok (ps, ss) => .ok (p ++ ps, s :: ss)

end

mutual

/-- The sequence of `Constant` and `Parameter` nodes met by a plain
left-to-right traversal of an expression.  This is the specification-side
description of the parameter schedule ("in strict left-to-right order of
appearance"); it is compared against the schedule the compiler builds. -/
def ltrExpressionParams {Ctx V : Type} : Expression Ctx V → List (Parameterizable Ctx V)
  | .column _ => []
  | .constant v => [Parameterizable.constant v]
  | .parameter f => [Parameterizable.parameter f]
  | .binOp _ l r => ltrExpressionParams l ++ ltrExpressionParams r
  | .unOp _ e => ltrExpressionParams e
  | .fn _ args => ltrExpressionListParams args
  | .tuple es => ltrExpressionListParams es
  | .asterisk => []

/-- Left-to-right traversal over a list of expressions. -/
def ltrExpressionListParams {Ctx V : Type} : List (Expression Ctx V) → List (Parameterizable Ctx V)
  | [] => []
  | e :: es => ltrExpressionParams e ++ ltrExpressionListParams es

end

/-! ## Statement AST (src/RSql/RSql.mts) and its rendering
(src/RSql/Expression.mts, lines 160-302) -/

/-- Sort direction (src/Page.mts, line 83). -/
inductive Direction where
  | asc | desc
  deriving DecidableEq, Repr

/-- SQL text of a direction as interpolated into `ORDER BY`. -/
def Direction.toSql : Direction → String
  | .asc => ("asc")
  | .desc => ("desc")

/-- `invertDirection` (src/Page.mts, lines 85-87). -/
def invertDirection : Direction → Direction
  | .asc => .desc
  | .desc => .asc

/-- One `orderBy` entry: a column name and a direction. -/
structure OrderByEntry where
  column : String
  direction : Direction
  deriving DecidableEq, Repr

/-- The statement AST `Statement` (src/RSql/RSql.mts): select / count /
insert (with optional on-conflict-do-update) / update / delete.  Record
fields that the source iterates with `Object.keys`/`Object.entries` are
embedded as association lists in iteration order. -/
inductive Statement (Ctx V : Type) where
  | select (columns : Option (List (Expression Ctx V)))
      (whereClause : Option (Expression Ctx V))
      (orderBy : List OrderByEntry)
      (limit : Option (Parameterizable Ctx V))
  | count (whereClause : Option (Expression Ctx V))
  | insert (values : List (String × Parameterizable Ctx V))
      (onConflict : Option (List String × List (String × Parameterizable Ctx V)))
  | update (set : List (String × Parameterizable Ctx V))
      (key : List (String × Parameterizable Ctx V))
  | delete (key : List (String × Parameterizable Ctx V))

/-- Rendering of a `Parameterizable` occurring where the source calls
`renderExpressionToSql(v as Parameterizable)`: it always yields the
descriptor and renders `?`. -/
def renderParameterizable {Ctx V : Type} (p : Parameterizable Ctx V) :
    List (Parameterizable Ctx V) × String :=
  ([p], ("?"))

/-- Rendering of the `WHERE k = ?` clauses of update/delete: the source
iterates `Object.entries(sqlAst.key)` rendering each value. -/
def renderKeyClauses {Ctx V : Type} :
    List (String × Parameterizable Ctx V) → List (Parameterizable Ctx V) × List String
  | [] => ([], [])
  | (k, v) :: rest =>
    let (p, s) := renderParameterizable v
    let (ps, ss) := renderKeyClauses rest
    (p ++ ps, (k ++ (" = ") ++ s) :: ss)

/-- Translation of the generator `renderStatementToSql`
(src/RSql/Expression.mts, lines 160-258), specialised to a table reference
rendered as its name (`renderTableRefToSql`).  The first component is the
parameter schedule in yield order, the second the SQL text. -/
def renderStatementToSql {Ctx V : Type} (tableName : String) :
    Statement Ctx V → Except String (List (Parameterizable Ctx V) × String)
  | .select columns whereClause orderBy limit =>
    match (match columns with
           | none => Except.ok (([] : List (Parameterizable Ctx V)), ("*"))
           | some cols =>
             match renderExpressionListToSql cols with
             | .error e => .error e
             | .ok (ps, ss) => .ok (ps, String.intercalate (", ") ss)) with
    | .error e => .error e
    | .ok (colParams, selection) =>
      match (match whereClause with
             | none => Except.ok (([] : List (Parameterizable Ctx V)), ("") )
             | some w =>
               match renderExpressionToSql w with
               | .error e => .error e
               | .ok (ps, s) => .ok (ps, (" WHERE ") ++ s)) with
      | .error e => .error e
      | .ok (whereParams, whereSql) =>
        let orderSql :=
          if orderBy.isEmpty then ("")
          else (" ORDER BY ") ++
            String.intercalate (", ")
              (orderBy.map (fun o => o.column ++ (" ") ++ o.direction.toSql))
        match limit with
        | none =>
          .ok (colParams ++ whereParams,
            ("SELECT ") ++ selection ++ (" FROM (") ++ tableName ++ (")") ++
              whereSql ++ orderSql)
        | some lim =>
          .ok (colParams ++ whereParams ++ [lim],
            ("SELECT ") ++ selection ++ (" FROM (") ++ tableName ++ (")") ++
              whereSql ++ orderSql ++ (" LIMIT ?"))
  | .count whereClause =>
    match (match whereClause with
           | none => Except.ok (([] : List (Parameterizable Ctx V)), ("") )
           | some w =>
             match renderExpressionToSql w with
             | .error e => .error e
             | .ok (ps, s) => .ok (ps, (" WHERE ") ++ s)) with
    | .error e => .error e
    | .ok (whereParams, whereSql) =>
      .ok (whereParams, ("SELECT COUNT(*) FROM (") ++ tableName ++ (")") ++ whereSql)
  | .insert values onConflict =>
    let keys := values.map Prod.fst
    let valueParams := values.map Prod.snd
    let baseSql := ("INSERT INTO ") ++ tableName ++ (" (") ++
      String.intercalate (", ") keys ++ (") VALUES (") ++
      String.intercalate (", ") (values.map (fun _ => ("?"))) ++ (")")
    match onConflict with
    | none => .ok (valueParams, baseSql)
    | some (cols, setEntries) =>
      .ok (valueParams ++ setEntries.map Prod.snd,
        baseSql ++ (" ON CONFLICT (") ++ String.intercalate (", ") cols ++
          (") DO UPDATE SET ") ++
          String.intercalate (", ") (setEntries.map (fun kv => kv.1 ++ (" = ?"))))
  | .update setEntries key =>
    let (keyParams, keyClauses) := renderKeyClauses key
    .ok (setEntries.map Prod.snd ++ keyParams,
      ("UPDATE ") ++ tableName ++ (" SET ") ++
        String.intercalate (", ") (setEntries.map (fun kv => kv.1 ++ (" = ?"))) ++
        (" WHERE ") ++ String.intercalate (" AND ") keyClauses)
  | .delete key =>
    let (keyParams, keyClauses) := renderKeyClauses key
    .ok (keyParams,
      ("DELETE FROM ") ++ tableName ++ (" WHERE ") ++
        String.intercalate (" AND ") keyClauses)

/-- Translation of `compileStatementToSql` (src/RSql/Expression.mts, lines
280-302): drive the render, keep the schedule, and return the extractor
mapping the schedule through `resolveParam`. -/
def compileStatementToSql {Ctx V : Type} (tableName : String) (stmt : Statement Ctx V) :
    Except String (String × (Ctx → List V)) :=
  match renderStatementToSql tableName stmt with
  | .error e => .error e
  | .ok (params, sql) => .ok (sql, fun ctx => params.map (resolveParam ctx))

/-- Specification-side parameter order of a whole statement: the sequence of
`Constant`/`Parameter` nodes in a left-to-right traversal (select columns,
then where, then limit; insert values then on-conflict set; update set then
key; delete key). -/
def ltrStatementParams {Ctx V : Type} : Statement Ctx V → List (Parameterizable Ctx V)
  | .select columns whereClause _ limit =>
    (match columns with
     | none => []
     | some cols => ltrExpressionListParams cols) ++
    (match whereClause with
     | none => []
     | some w => ltrExpressionParams w) ++
    (match limit with
     | none => []
     | some lim => [lim])
  | .count whereClause =>
    match whereClause with
    | none => []
    | some w => ltrExpressionParams w
  | .insert values onConflict =>
    values.map Prod.snd ++
    (match onConflict with
     | none => []
     | some (_, setEntries) => setEntries.map Prod.snd)
  | .update setEntries key => setEntries.map Prod.snd ++ key.map Prod.snd
  | .delete key => key.map Prod.snd

/-! ## The parameter schedule is the left-to-right traversal -/

mutual

/-- Whenever rendering an expression succeeds, its parameter schedule is the
left-to-right traversal of the AST. -/
theorem renderExpression_params {Ctx V : Type} (e : Expression Ctx V)
    (ps : List (Parameterizable Ctx V)) (s : String)
    (h : renderExpressionToSql e = Except.ok (ps, s)) : ps = ltrExpressionParams e := by
  cases e with
  | column n =>
    simp only [renderExpressionToSql, Except.ok.injEq, Prod.mk.injEq] at h
    simp [ltrExpressionParams, ← h.1]
  | constant v =>
    simp only [renderExpressionToSql, Except.ok.injEq, Prod.mk.injEq] at h
    simp [ltrExpressionParams, ← h.1]
  | parameter f =>
    simp only [renderExpressionToSql, Except.ok.injEq, Prod.mk.injEq] at h
    simp [ltrExpressionParams, ← h.1]
  | asterisk =>
    simp only [renderExpressionToSql, Except.ok.injEq, Prod.mk.injEq] at h
    simp [ltrExpressionParams, ← h.1]
  | binOp op l r =>
    cases hl : renderExpressionToSql l with
    | error e0 => simp [renderExpressionToSql, hl] at h
    | ok plv =>
      cases hr : renderExpressionToSql r with
      | error e0 => simp [renderExpressionToSql, hl, hr] at h
      | ok prv =>
        simp only [renderExpressionToSql, hl, hr, Except.ok.injEq, Prod.mk.injEq] at h
        rw [ltrExpressionParams, ← renderExpression_params l plv.1 plv.2 (by rw [hl]),
          ← renderExpression_params r prv.1 prv.2 (by rw [hr]), ← h.1]
  | unOp op e0 =>
    cases op with
    | not =>
      cases he : renderExpressionToSql e0 with
      | error e1 => simp [renderExpressionToSql, he] at h
      | ok pv =>
        simp only [renderExpressionToSql, he, Except.ok.injEq, Prod.mk.injEq] at h
        rw [ltrExpressionParams, ← renderExpression_params e0 pv.1 pv.2 (by rw [he]), ← h.1]
    | neg => simp [renderExpressionToSql] at h
    | pos => simp [renderExpressionToSql] at h
  | fn n args =>
    cases ha : renderExpressionListToSql args with
    | error e1 => simp [renderExpressionToSql, ha] at h
    | ok pv =>
      simp only [renderExpressionToSql, ha, Except.ok.injEq, Prod.mk.injEq] at h
      rw [ltrExpressionParams, ← renderExpressionList_params args pv.1 pv.2 (by rw [ha]), ← h.1]
  | tuple es =>
    cases ha : renderExpressionListToSql es with
    | error e1 => simp [renderExpressionToSql, ha] at h
    | ok pv =>
      simp only [renderExpressionToSql, ha, Except.ok.injEq, Prod.mk.injEq] at h
      rw [ltrExpressionParams, ← renderExpressionList_params es pv.1 pv.2 (by rw [ha]), ← h.1]

/-- List version of `renderExpression_params`. -/
theorem renderExpressionList_params {Ctx V : Type} (es : List (Expression Ctx V))
    (ps : List (Parameterizable Ctx V)) (ss : List String)
    (h : renderExpressionListToSql es = Except.ok (ps, ss)) :
    ps = ltrExpressionListParams es := by
  cases es with
  | nil =>
    simp only [renderExpressionListToSql, Except.ok.injEq, Prod.mk.injEq] at h
    simp [ltrExpressionListParams, ← h.1]
  | cons e es =>
    cases he : renderExpressionToSql e with
    | error e1 => simp [renderExpressionListToSql, he] at h
    | ok pv =>
      cases hes : renderExpressionListToSql es with
      | error e1 => simp [renderExpressionListToSql, he, hes] at h
      | ok pvs =>
        simp only [renderExpressionListToSql, he, hes, Except.ok.injEq, Prod.mk.injEq] at h
        rw [ltrExpressionListParams, ← renderExpression_params e pv.1 pv.2 (by rw [he]),
          ← renderExpressionList_params es pvs.1 pvs.2 (by rw [hes]), ← h.1]

end

/-- The key-clause renderer schedules exactly the key values, in order. -/
theorem renderKeyClauses_params {Ctx V : Type} (key : List (String × Parameterizable Ctx V)) :
    (renderKeyClauses key).1 = key.map Prod.snd := by
  induction key with
  | nil => simp [renderKeyClauses]
  | cons kv rest ih => simp [renderKeyClauses, renderParameterizable, ih]

/-- Whenever rendering a statement succeeds, its parameter schedule is the
left-to-right traversal of the statement. -/
theorem renderStatement_params {Ctx V : Type} (tableName : String) (stmt : Statement Ctx V)
    (ps : List (Parameterizable Ctx V)) (s : String)
    (h : renderStatementToSql tableName stmt = Except.ok (ps, s)) :
    ps = ltrStatementParams stmt := by
  cases stmt with
  | select columns whereClause orderBy limit =>
    cases columns with
    | none =>
      cases whereClause with
      | none =>
        cases limit with
        | none =>
          simp only [renderStatementToSql, Except.ok.injEq, Prod.mk.injEq] at h
          simp [ltrStatementParams, ← h.1]
        | some lim =>
          simp only [renderStatementToSql, Except.ok.injEq, Prod.mk.injEq] at h
          simp [ltrStatementParams, ← h.1]
      | some w =>
        cases hw : renderExpressionToSql w with
        | error e0 => simp [renderStatementToSql, hw] at h
        | ok pw =>
          cases limit with
          | none =>
            simp only [renderStatementToSql, hw, Except.ok.injEq, Prod.mk.injEq] at h
            rw [ltrStatementParams, ← renderExpression_params w pw.1 pw.2 (by rw [hw]), ← h.1]
            simp
          | some lim =>
            simp only [renderStatementToSql, hw, Except.ok.injEq, Prod.mk.injEq] at h
            rw [ltrStatementParams, ← renderExpression_params w pw.1 pw.2 (by rw [hw]), ← h.1]
    | some cols =>
      cases hc : renderExpressionListToSql cols with
      | error e0 => simp [renderStatementToSql, hc] at h
      | ok pc =>
        cases whereClause with
        | none =>
          cases limit with
          | none =>
            simp only [renderStatementToSql, hc, Except.ok.injEq, Prod.mk.injEq] at h
            rw [ltrStatementParams, ← renderExpressionList_params cols pc.1 pc.2 (by rw [hc]),
              ← h.1]
            simp
          | some lim =>
            simp only [renderStatementToSql, hc, Except.ok.injEq, Prod.mk.injEq] at h
            rw [ltrStatementParams, ← renderExpressionList_params cols pc.1 pc.2 (by rw [hc]),
              ← h.1]
        | some w =>
          cases hw : renderExpressionToSql w with
          | error e0 => simp [renderStatementToSql, hc, hw] at h
          | ok pw =>
            cases limit with
            | none =>
              simp only [renderStatementToSql, hc, hw, Except.ok.injEq, Prod.mk.injEq] at h
              rw [ltrStatementParams, ← renderExpressionList_params cols pc.1 pc.2 (by rw [hc]),
                ← renderExpression_params w pw.1 pw.2 (by rw [hw]), ← h.1]
              simp
            | some lim =>
              simp only [renderStatementToSql, hc, hw, Except.ok.injEq, Prod.mk.injEq] at h
              rw [ltrStatementParams, ← renderExpressionList_params cols pc.1 pc.2 (by rw [hc]),
                ← renderExpression_params w pw.1 pw.2 (by rw [hw]), ← h.1]
  | count whereClause =>
    cases whereClause with
    | none =>
      simp only [renderStatementToSql, Except.ok.injEq, Prod.mk.injEq] at h
      simp [ltrStatementParams, ← h.1]
    | some w =>
      cases hw : renderExpressionToSql w with
      | error e0 => simp [renderStatementToSql, hw] at h
      | ok pw =>
        simp only [renderStatementToSql, hw, Except.ok.injEq, Prod.mk.injEq] at h
        rw [ltrStatementParams, ← renderExpression_params w pw.1 pw.2 (by rw [hw]), ← h.1]
  | insert values onConflict =>
    cases onConflict with
    | none =>
      simp only [renderStatementToSql, Except.ok.injEq, Prod.mk.injEq] at h
      simp [ltrStatementParams, ← h.1]
    | some oc =>
      simp only [renderStatementToSql, Except.ok.injEq, Prod.mk.injEq] at h
      simp [ltrStatementParams, ← h.1]
  | update setEntries key =>
    simp only [renderStatementToSql, Except.ok.injEq, Prod.mk.injEq] at h
    rw [ltrStatementParams, ← h.1, renderKeyClauses_params]
  | delete key =>
    simp only [renderStatementToSql, Except.ok.injEq, Prod.mk.injEq] at h
    rw [ltrStatementParams, ← h.1, renderKeyClauses_params]

/-! ## Claims C6 and C7 -/

/-- Claim C6, counterexample: the compiler does not render unary minus as a
prefixed operator; `renderExpressionToSql` on `UnOp -` over a column raises
the unsupported-expression error, refuting the claim that every expression
containing a unary `+` or `-` node produces prefixed SQL text. -/
theorem C6_counterexample :
    renderExpressionToSql ((Expression.unOp .neg (Expression.column ("a"))) : Expression Unit Int)
      = Except.error ("Unsupported expression type in renderExpression unOp") := rfl

/-- Claim C6 (amended): `UnOp NOT` renders as `(NOT e)`; unary `+` and `-`
are not rendered as prefixed operators but raise the unsupported-expression
error. -/
theorem C6_unop_rendering {Ctx V : Type} (e : Expression Ctx V)
    (ps : List (Parameterizable Ctx V)) (s : String)
    (h : renderExpressionToSql e = Except.ok (ps, s)) :
    renderExpressionToSql (.unOp .not e) = Except.ok (ps, ("(NOT ") ++ s ++ (")")) ∧
    renderExpressionToSql (.unOp .neg e)
      = Except.error ("Unsupported expression type in renderExpression unOp") ∧
    renderExpressionToSql (.unOp .pos e)
      = Except.error ("Unsupported expression type in renderExpression unOp") := by
  refine ⟨?_, rfl, rfl⟩
  simp [renderExpressionToSql, h]

/-- Witness for C6: instantiation at the column expression `a`. -/
theorem C6_unop_rendering_witness :
    renderExpressionToSql ((Expression.unOp .not (Expression.column ("a"))) : Expression Unit Int)
      = Except.ok ([], ("(NOT a)")) ∧
    renderExpressionToSql ((Expression.unOp .neg (Expression.column ("a"))) : Expression Unit Int)
      = Except.error ("Unsupported expression type in renderExpression unOp") :=
  ⟨(C6_unop_rendering (.column ("a")) [] ("a") rfl).1,
   (C6_unop_rendering (.column ("a")) [] ("a") rfl).2.1⟩

/-- Claim C7: every Constant and Parameter renders as a `?` placeholder
appending one descriptor to the schedule, the schedule is the strict
left-to-right order of appearance, and the compiled extractor applied to a
context resolves exactly that sequence (Constant literals and Parameter
`getValue ctx` results). -/
theorem C7_param_schedule {Ctx V : Type} (tableName : String) (stmt : Statement Ctx V)
    (sql : String) (extract : Ctx → List V)
    (h : compileStatementToSql tableName stmt = Except.ok (sql, extract)) :
    (∀ v : V, renderExpressionToSql ((Expression.constant v) : Expression Ctx V)
        = Except.ok ([Parameterizable.constant v], ("?"))) ∧
    (∀ f : Ctx → V, renderExpressionToSql (.parameter f)
        = Except.ok ([Parameterizable.parameter f], ("?"))) ∧
    ∀ ctx : Ctx, extract ctx = (ltrStatementParams stmt).map (resolveParam ctx) := by
  refine ⟨fun v => rfl, fun f => rfl, ?_⟩
  intro ctx
  unfold compileStatementToSql at h
  cases hr : renderStatementToSql tableName stmt with
  | error e0 => rw [hr] at h; exact absurd h (by simp)
  | ok pv =>
    rw [hr] at h
    simp only [Except.ok.injEq, Prod.mk.injEq] at h
    rw [← h.2, ← renderStatement_params tableName stmt pv.1 pv.2 (by rw [hr])]

/-- The select statement of the repository test "should render tuple of
constants and parameters": `SELECT * FROM (users) WHERE (?, ?, ?)`. -/
def stmtC7 : Statement Int Int :=
  .select none (some (.tuple [.constant 1, .parameter (fun c => c), .constant 42])) [] none

/-- The parameter schedule of `stmtC7`. -/
def paramsC7 : List (Parameterizable Int Int) :=
  [.constant 1, .parameter (fun c => c), .constant 42]

/-- Witness for C7: the test statement compiles to the expected SQL and its
extractor at context `7` resolves the left-to-right parameter traversal. -/
theorem C7_param_schedule_witness :
    compileStatementToSql ("users") stmtC7 =
      Except.ok (("SELECT * FROM (users) WHERE (?, ?, ?)"),
        fun ctx => paramsC7.map (resolveParam ctx)) ∧
    (fun ctx => paramsC7.map (resolveParam ctx)) 7
      = (ltrStatementParams stmtC7).map (resolveParam 7) :=
  ⟨rfl,
   (C7_param_schedule ("users") stmtC7 ("SELECT * FROM (users) WHERE (?, ?, ?)")
     (fun ctx => paramsC7.map (resolveParam ctx)) rfl).2.2 7⟩

/-! ## Claim C5: the client-side expression interpreter
(src/util/rsqlExpressionToFilterFn.mts) versus the SQL operator semantics -/

/-- Scalar values of the host language, with numbers idealised as rationals.
`undef` models the value of a missing object property. -/
inductive Value where
  | num (q : ℚ)
  | str (s : String)
  | bool (b : Bool)
  | null
  | undef
  deriving DecidableEq

/-- A row as the interpreter sees it: column name to scalar. -/
abbrev ValueRow := List (String × Value)

/-- JS binary operator application as performed by `evalExpr`
(src/util/rsqlExpressionToFilterFn.mts, lines 15-44): `===`/`!==` are strict
equality, comparisons and arithmetic act on numbers (string comparison and
concatenation are also embedded); host coercions between kinds and
division by zero / fractional exponents are outside the model and embedded
as errors.  `AND` and `OR` fall into the `default` branch of the interpreter and
raise `Unsupported operator`, exactly as in the source. -/
def jsApplyBinOp : BinOpKind → Value → Value → Except String Value
  | .eq, l, r => .ok (.bool (decide (l = r)))
  | .ne, l, r => .ok (.bool (! decide (l = r)))
  | .lt, .num a, .num b => .ok (.bool (decide (a < b)))
  | .lt, .str a, .str b => .ok (.bool (decide (a < b)))
  | .lt, _, _ => .error ("model: comparison coercion outside embedding")
  | .le, .num a, .num b => .ok (.bool (decide (a ≤ b)))
  | .le, .str a, .str b => .ok (.bool (decide (a ≤ b)))
  | .le, _, _ => .error ("model: comparison coercion outside embedding")
  | .gt, .num a, .num b => .ok (.bool (decide (b < a)))
  | .gt, .str a, .str b => .ok (.bool (decide (b < a)))
  | .gt, _, _ => .error ("model: comparison coercion outside embedding")
  | .ge, .num a, .num b => .ok (.bool (decide (b ≤ a)))
  | .ge, .str a, .str b => .ok (.bool (decide (b ≤ a)))
  | .ge, _, _ => .error ("model: comparison coercion outside embedding")
  | .add, .num a, .num b => .ok (.num (a + b))
  | .add, .str a, .str b => .ok (.str (a ++ b))
  | .add, _, _ => .error ("model: addition coercion outside embedding")
  | .sub, .num a, .num b => .ok (.num (a - b))
  | .sub, _, _ => .error ("model: arithmetic coercion outside embedding")
  | .mul, .num a, .num b => .ok (.num (a * b))
  | .mul, _, _ => .error ("model: arithmetic coercion outside embedding")
  | .div, .num a, .num b =>
    if b = 0 then .error ("model: division by zero outside embedding")
    else .ok (.num (a / b))
  | .div, _, _ => .error ("model: arithmetic coercion outside embedding")
  | .pow, .num a, .num b =>
    if b.den = 1 then .ok (.num (a ^ b.num))
    else .error ("model: fractional exponent outside embedding")
  | .pow, _, _ => .error ("model: arithmetic coercion outside embedding")
  | .and, _, _ => .error ("Unsupported operator")
  | .or, _, _ => .error ("Unsupported operator")

/-- JS unary operator application as performed by `evalExpr`
(src/util/rsqlExpressionToFilterFn.mts, lines 45-55): `+` and `-` on
numbers; `NOT` falls into the `default` branch and raises
`Unsupported unary operator`, exactly as in the source. -/
def jsApplyUnOp : UnOpKind → Value → Except String Value
  | .pos, .num a => .ok (.num a)
  | .pos, _ => .error ("model: unary coercion outside embedding")
  | .neg, .num a => .ok (.num (-a))
  | .neg, _ => .error ("model: unary coercion outside embedding")
  | .not, _ => .error ("Unsupported unary operator")

/-- Translation of `evalExpr` inside `rsqlExpressionToFilterFn`
(src/util/rsqlExpressionToFilterFn.mts, lines 9-59): columns read the row
(a missing property is `undef`), constants are literal, binary and unary
operators evaluate their operands first and then apply the operator; every
other AST kind falls into the `default` branch raising
`Unknown SqlExpression kind`. -/
def rsqlEvalExpr {Ctx : Type} (row : ValueRow) : Expression Ctx Value → Except String Value
  | .column n => .ok ((row.lookup n).getD .undef)
  | .constant v => .ok v
  | .binOp op l r =>
    match rsqlEvalExpr row l with
    | .error e => .error e
    | .ok lv =>
      match rsqlEvalExpr row r with
      | .error e => .error e
      | .ok rv => jsApplyBinOp op lv rv
  | .unOp op e =>
    match rsqlEvalExpr row e with
    | .error e0 => .error e0
    | .ok v => jsApplyUnOp op v
  | .parameter _ => .error ("Unknown SqlExpression kind")
  | .fn _ _ => .error ("Unknown SqlExpression kind")
  | .tuple _ => .error ("Unknown SqlExpression kind")
  | .asterisk => .error ("Unknown SqlExpression kind")

/-- Modelled from the spec: binary operator semantics of the compiled SQL
(the SQLite backend itself is external to src/).  Spec §4.1/§4.6: the
operator set acts with "numeric on numbers, strict equality on everything
else; `^` is exponentiation; `/` is floating division", and `AND`/`OR` are
the boolean connectives. -/
def sqlApplyBinOp : BinOpKind → Value → Value → Except String Value
  | .and, .bool a, .bool b => .ok (.bool (a && b))
  | .and, _, _ => .error ("model: boolean connective outside embedding")
  | .or, .bool a, .bool b => .ok (.bool (a || b))
  | .or, _, _ => .error ("model: boolean connective outside embedding")
  | op, l, r => jsApplyBinOp op l r

/-- Modelled from the spec: unary operator semantics of the compiled SQL;
`NOT` is boolean negation, `+`/`-` are numeric. -/
def sqlApplyUnOp : UnOpKind → Value → Except String Value
  | .not, .bool b => .ok (.bool (! b))
  | .not, _ => .error ("model: boolean negation outside embedding")
  | .pos, v => jsApplyUnOp .pos v
  | .neg, v => jsApplyUnOp .neg v

/-- Modelled from the spec: evaluation of an expression under the compiled
SQL semantics against one row. -/
def sqlSemanticsEval {Ctx : Type} (row : ValueRow) : Expression Ctx Value → Except String Value
  | .column n => .ok ((row.lookup n).getD .undef)
  | .constant v => .ok v
  | .binOp op l r =>
    match sqlSemanticsEval row l with
    | .error e => .error e
    | .ok lv =>
      match sqlSemanticsEval row r with
      | .error e => .error e
      | .ok rv => sqlApplyBinOp op lv rv
  | .unOp op e =>
    match sqlSemanticsEval row e with
    | .error e0 => .error e0
    | .ok v => sqlApplyUnOp op v
  | .parameter _ => .error ("model: late-bound parameter outside embedding")
  | .fn _ _ => .error ("model: function call outside embedding")
  | .tuple _ => .error ("model: tuple outside embedding")
  | .asterisk => .error ("model: asterisk outside embedding")

/-- Claim C5, counterexample: `AND` belongs to the operator set of the AST, the
SQL semantics evaluates it, yet the interpreter raises `Unsupported
operator` on it — refuting the claim that the interpreter accepts every
expression over the operator set, raising only for genuinely unknown AST
kinds. -/
theorem C5_counterexample :
    rsqlEvalExpr []
        ((Expression.binOp .and (Expression.constant (Value.bool true))
          (Expression.constant (Value.bool true))) : Expression Unit Value)
      = Except.error ("Unsupported operator") ∧
    sqlSemanticsEval []
        ((Expression.binOp .and (Expression.constant (Value.bool true))
          (Expression.constant (Value.bool true))) : Expression Unit Value)
      = Except.ok (.bool true) := ⟨rfl, rfl⟩

/-- Derivations of numeric-operand evaluations shared by the interpreter and
the SQL semantics: numeric constants and columns, arithmetic with a nonzero
divisor and integer exponents, unary sign, and the six comparisons on
numeric operands. -/
inductive EvalsTo {Ctx : Type} (row : ValueRow) : Expression Ctx Value → Value → Prop where
  | constNum (q : ℚ) : EvalsTo row (.constant (.num q)) (.num q)
  | col (n : String) (q : ℚ) (h : row.lookup n = some (.num q)) :
      EvalsTo row (.column n) (.num q)
  | add {l r : Expression Ctx Value} {a b : ℚ} :
      EvalsTo row l (.num a) → EvalsTo row r (.num b) →
      EvalsTo row (.binOp .add l r) (.num (a + b))
  | sub {l r : Expression Ctx Value} {a b : ℚ} :
      EvalsTo row l (.num a) → EvalsTo row r (.num b) →
      EvalsTo row (.binOp .sub l r) (.num (a - b))
  | mul {l r : Expression Ctx Value} {a b : ℚ} :
      EvalsTo row l (.num a) → EvalsTo row r (.num b) →
      EvalsTo row (.binOp .mul l r) (.num (a * b))
  | div {l r : Expression Ctx Value} {a b : ℚ} (hb : b ≠ 0) :
      EvalsTo row l (.num a) → EvalsTo row r (.num b) →
      EvalsTo row (.binOp .div l r) (.num (a / b))
  | pow {l r : Expression Ctx Value} {a : ℚ} (z : ℤ) :
      EvalsTo row l (.num a) → EvalsTo row r (.num (z : ℚ)) →
      EvalsTo row (.binOp .pow l r) (.num (a ^ z))
  | negU {e : Expression Ctx Value} {a : ℚ} :
      EvalsTo row e (.num a) → EvalsTo row (.unOp .neg e) (.num (-a))
  | posU {e : Expression Ctx Value} {a : ℚ} :
      EvalsTo row e (.num a) → EvalsTo row (.unOp .pos e) (.num a)
  | cmpEq {l r : Expression Ctx Value} {a b : ℚ} :
      EvalsTo row l (.num a) → EvalsTo row r (.num b) →
      EvalsTo row (.binOp .eq l r) (.bool (decide (a = b)))
  | cmpNe {l r : Expression Ctx Value} {a b : ℚ} :
      EvalsTo row l (.num a) → EvalsTo row r (.num b) →
      EvalsTo row (.binOp .ne l r) (.bool (! decide (a = b)))
  | cmpLt {l r : Expression Ctx Value} {a b : ℚ} :
      EvalsTo row l (.num a) → EvalsTo row r (.num b) →
      EvalsTo row (.binOp .lt l r) (.bool (decide (a < b)))
  | cmpLe {l r : Expression Ctx Value} {a b : ℚ} :
      EvalsTo row l (.num a) → EvalsTo row r (.num b) →
      EvalsTo row (.binOp .le l r) (.bool (decide (a ≤ b)))
  | cmpGt {l r : Expression Ctx Value} {a b : ℚ} :
      EvalsTo row l (.num a) → EvalsTo row r (.num b) →
      EvalsTo row (.binOp .gt l r) (.bool (decide (b < a)))
  | cmpGe {l r : Expression Ctx Value} {a b : ℚ} :
      EvalsTo row l (.num a) → EvalsTo row r (.num b) →
      EvalsTo row (.binOp .ge l r) (.bool (decide (b ≤ a)))

/-- Claim C5 (amended): on arithmetic and comparison operators over numeric
operands (nonzero divisors, integer exponents) the interpreter and the SQL
semantics agree; the logical operators `AND`, `OR` and `NOT` make the
interpreter raise instead of being accepted. -/
theorem C5_interp_agrees {Ctx : Type} (row : ValueRow) (e : Expression Ctx Value) (v : Value)
    (h : EvalsTo row e v) :
    (rsqlEvalExpr row e = Except.ok v ∧ sqlSemanticsEval row e = Except.ok v) ∧
    (rsqlEvalExpr row (.binOp .and e e) = Except.error ("Unsupported operator") ∧
      rsqlEvalExpr row (.binOp .or e e) = Except.error ("Unsupported operator")) ∧
    rsqlEvalExpr row (.unOp .not e) = Except.error ("Unsupported unary operator") := by
  have main : rsqlEvalExpr row e = Except.ok v ∧ sqlSemanticsEval row e = Except.ok v := by
    induction h with
    | constNum q => exact ⟨rfl, rfl⟩
    | col n q hq => exact ⟨by simp [rsqlEvalExpr, hq], by simp [sqlSemanticsEval, hq]⟩
    | add hl hr ihl ihr =>
      exact ⟨by simp [rsqlEvalExpr, ihl.1, ihr.1, jsApplyBinOp],
             by simp [sqlSemanticsEval, ihl.2, ihr.2, sqlApplyBinOp, jsApplyBinOp]⟩
    | sub hl hr ihl ihr =>
      exact ⟨by simp [rsqlEvalExpr, ihl.1, ihr.1, jsApplyBinOp],
             by simp [sqlSemanticsEval, ihl.2, ihr.2, sqlApplyBinOp, jsApplyBinOp]⟩
    | mul hl hr ihl ihr =>
      exact ⟨by simp [rsqlEvalExpr, ihl.1, ihr.1, jsApplyBinOp],
             by simp [sqlSemanticsEval, ihl.2, ihr.2, sqlApplyBinOp, jsApplyBinOp]⟩
    | div hb hl hr ihl ihr =>
      exact ⟨by simp [rsqlEvalExpr, ihl.1, ihr.1, jsApplyBinOp, hb],
             by simp [sqlSemanticsEval, ihl.2, ihr.2, sqlApplyBinOp, jsApplyBinOp, hb]⟩
    | pow z hl hr ihl ihr =>
      refine ⟨?_, ?_⟩
      · simp [rsqlEvalExpr, ihl.1, ihr.1, jsApplyBinOp, Rat.den_intCast, Rat.num_intCast]
      · simp [sqlSemanticsEval, ihl.2, ihr.2, sqlApplyBinOp, jsApplyBinOp,
          Rat.den_intCast, Rat.num_intCast]
    | negU he ih => exact ⟨by simp [rsqlEvalExpr, ih.1, jsApplyUnOp],
        by simp [sqlSemanticsEval, ih.2, sqlApplyUnOp, jsApplyUnOp]⟩
    | posU he ih => exact ⟨by simp [rsqlEvalExpr, ih.1, jsApplyUnOp],
        by simp [sqlSemanticsEval, ih.2, sqlApplyUnOp, jsApplyUnOp]⟩
    | cmpEq hl hr ihl ihr =>
      refine ⟨?_, ?_⟩
      · simp only [rsqlEvalExpr, ihl.1, ihr.1, jsApplyBinOp]
        congr 2
        simp [Value.num.injEq]
      · simp only [sqlSemanticsEval, ihl.2, ihr.2, sqlApplyBinOp, jsApplyBinOp]
        congr 2
        simp [Value.num.injEq]
    | cmpNe hl hr ihl ihr =>
      refine ⟨?_, ?_⟩
      · simp only [rsqlEvalExpr, ihl.1, ihr.1, jsApplyBinOp]
        congr 3
        simp [Value.num.injEq]
      · simp only [sqlSemanticsEval, ihl.2, ihr.2, sqlApplyBinOp, jsApplyBinOp]
        congr 3
        simp [Value.num.injEq]
    | cmpLt hl hr ihl ihr =>
      exact ⟨by simp [rsqlEvalExpr, ihl.1, ihr.1, jsApplyBinOp],
             by simp [sqlSemanticsEval, ihl.2, ihr.2, sqlApplyBinOp, jsApplyBinOp]⟩
    | cmpLe hl hr ihl ihr =>
      exact ⟨by simp [rsqlEvalExpr, ihl.1, ihr.1, jsApplyBinOp],
             by simp [sqlSemanticsEval, ihl.2, ihr.2, sqlApplyBinOp, jsApplyBinOp]⟩
    | cmpGt hl hr ihl ihr =>
      exact ⟨by simp [rsqlEvalExpr, ihl.1, ihr.1, jsApplyBinOp],
             by simp [sqlSemanticsEval, ihl.2, ihr.2, sqlApplyBinOp, jsApplyBinOp]⟩
    | cmpGe hl hr ihl ihr =>
      exact ⟨by simp [rsqlEvalExpr, ihl.1, ihr.1, jsApplyBinOp],
             by simp [sqlSemanticsEval, ihl.2, ihr.2, sqlApplyBinOp, jsApplyBinOp]⟩
  refine ⟨main, ⟨?_, ?_⟩, ?_⟩
  · simp [rsqlEvalExpr, main.1, jsApplyBinOp]
  · simp [rsqlEvalExpr, main.1, jsApplyBinOp]
  · simp [rsqlEvalExpr, main.1, jsApplyUnOp]

/-- The row and expression of the C5 witness: `age < 30` on a row with
`age = 25`. -/
def rowC5 : ValueRow := [(("age"), Value.num 25)]

/-- The comparison expression of the C5 witness. -/
def exprC5 : Expression Unit Value := .binOp .lt (.column ("age")) (.constant (.num 30))

/-- Witness for C5: the interpreter and the SQL semantics both evaluate
`age < 30` to `true` on the row `age = 25`, and the interpreter raises on
`AND` and `NOT` around it. -/
theorem C5_interp_agrees_witness :
    rsqlEvalExpr rowC5 exprC5 = Except.ok (.bool true) ∧
    sqlSemanticsEval rowC5 exprC5 = Except.ok (.bool true) ∧
    rsqlEvalExpr rowC5 (.unOp .not exprC5) = Except.error ("Unsupported unary operator") := by
  have h := C5_interp_agrees rowC5 exprC5 (.bool (decide ((25 : ℚ) < 30)))
    (EvalsTo.cmpLt (EvalsTo.col ("age") 25 rfl) (EvalsTo.constNum 30))
  have h25 : ((25 : ℚ) < 30) := by norm_num
  refine ⟨?_, ?_, h.2.2⟩
  · rw [h.1.1]; simp [h25]
  · rw [h.1.2]; simp [h25]

/-! ## Pagination planner (src/Page.mts `compileFindMany`) and
`BetterSqlite3Storage.findMany` -/

/-- `pkCovered` is the condition of the first planner assertion
(src/Page.mts, lines 122-127): every primary-key column occurs among the
orderBy columns. -/
def pkCovered (pk : List String) (orderBy : List OrderByEntry) : Bool :=
  pk.all (fun k => orderBy.any (fun o => o.column == k))

/-- `directionsAgree` is the condition of the second planner assertion
(src/Page.mts, lines 128-132): all directions ascending or all descending. -/
def directionsAgree (orderBy : List OrderByEntry) : Bool :=
  orderBy.all (fun o => o.direction == Direction.asc) ||
    orderBy.all (fun o => o.direction == Direction.desc)

/-- The assertion prologue of `compileFindMany` (src/Page.mts, lines
122-132, identical in BetterSqlite3Storage.mts lines 350-360): the failed
assertion raises with its message, otherwise the planner proceeds (the
cursor column list stands in for the produced query bundle). -/
def compileFindManyAsserts (pk : List String) (orderBy : List OrderByEntry) :
    Except String (List String) :=
  if ! pkCovered pk orderBy then
    .error ("orderBy must include all primary key columns")
  else if ! directionsAgree orderBy then
    .error ("orderBy must be all ascending or all descending")
  else
    .ok (orderBy.map (fun o => o.column))

/-- Claim C4: the planner raises an assertion failure if and only if the
orderBy list omits some primary-key column or mixes ascending and
descending directions. -/
theorem C4_planner_asserts (pk : List String) (orderBy : List OrderByEntry) :
    (compileFindManyAsserts pk orderBy).isOk = false ↔
      ((∃ k ∈ pk, ∀ o ∈ orderBy, o.column ≠ k) ∨
       ((∃ o ∈ orderBy, o.direction = Direction.asc) ∧
        (∃ o ∈ orderBy, o.direction = Direction.desc))) := by
  unfold compileFindManyAsserts
  by_cases hc : pkCovered pk orderBy
  · by_cases hd : directionsAgree orderBy
    · simp only [hc, hd, Bool.not_true, Bool.false_eq_true, if_false, Except.isOk,
        Except.toBool]
      constructor
      · intro h; exact absurd h (by simp)
      · rintro (⟨k, hk, hnone⟩ | ⟨⟨oa, hoa, ha⟩, ⟨od, hod, hd2⟩⟩)
        · exfalso
          have := (List.all_eq_true.mp hc) k hk
          obtain ⟨o, ho, heq⟩ := List.any_eq_true.mp this
          exact hnone o ho (by simpa using heq)
        · exfalso
          rcases Bool.or_eq_true_iff.mp hd with hall | hall
          · have := (List.all_eq_true.mp hall) od hod
            simp [hd2] at this
          · have := (List.all_eq_true.mp hall) oa hoa
            simp [ha] at this
    · simp only [hc, hd, Bool.not_true, Bool.false_eq_true, if_false, Bool.not_false,
        if_true, Except.isOk, Except.toBool]
      constructor
      · intro _
        right
        unfold directionsAgree at hd
        rcases Bool.or_eq_false_iff.mp (Bool.eq_false_iff.mpr hd) with ⟨h1, h2⟩
        have e1 := List.all_eq_false.mp h1
        have e2 := List.all_eq_false.mp h2
        obtain ⟨o1, ho1, hno1⟩ := e1
        obtain ⟨o2, ho2, hno2⟩ := e2
        refine ⟨⟨o2, ho2, ?_⟩, ⟨o1, ho1, ?_⟩⟩
        · cases h2 : o2.direction with
          | asc => rfl
          | desc => simp [h2] at hno2
        · cases h1 : o1.direction with
          | asc => simp [h1] at hno1
          | desc => rfl
      · intro _; trivial
  · simp only [hc, Bool.not_false, if_true, Except.isOk, Except.toBool]
    constructor
    · intro _
      left
      unfold pkCovered at hc
      obtain ⟨k, hk, hany⟩ := List.all_eq_false.mp (Bool.eq_false_iff.mpr hc)
      refine ⟨k, hk, fun o ho heq => ?_⟩
      have := List.any_eq_false.mp (Bool.eq_false_iff.mpr hany) o ho
      simp [heq] at this
    · intro _; trivial

/-! ### Execution model of the planner queries

`compileFindMany` builds the seven queries over the tuple of orderBy
columns; because orderBy covers the whole primary key, that tuple
identifies the row, so a row is represented below by its cursor tuple,
drawn from a linear order (SQL row-value comparison is lexicographic,
hence a linear order on equal-length tuples).  The executor is modelled
from the storage-adapter contract of the spec (§6): the backend filters by the
WHERE predicate, orders by the ORDER BY clause and applies the LIMIT.
The filter expression is abstracted to the predicate it denotes since every
query conjoins the same one. -/

/-- ORDER BY execution: sort ascending or descending. -/
def sortRowsBy {α : Type} [LinearOrder α] (d : Direction) (rows : List α) : List α :=
  match d with
  | .asc => rows.insertionSort (fun a b => a ≤ b)
  | .desc => rows.insertionSort (fun a b => b ≤ a)

/-- Rows matching the filter, in orderBy order (WHERE + ORDER BY). -/
def matchingRows {α : Type} [LinearOrder α] (p : α → Bool) (d : Direction)
    (rows : List α) : List α :=
  (sortRowsBy d rows).filter p

/-- `loadFirst` (src/Page.mts, lines 151-160): WHERE = filter, ORDER BY as
given, LIMIT bound. -/
def loadFirstQ {α : Type} [LinearOrder α] (p : α → Bool) (d : Direction)
    (rows : List α) (limit : ℕ) : List α :=
  (matchingRows p d rows).take limit

/-- `loadLast` (src/Page.mts, lines 163-172): WHERE = filter, ORDER BY with
every direction inverted, LIMIT bound. -/
def loadLastQ {α : Type} [LinearOrder α] (p : α → Bool) (d : Direction)
    (rows : List α) (limit : ℕ) : List α :=
  (matchingRows p (invertDirection d) rows).take limit

/-- `loadNext` (src/Page.mts, lines 175-192): WHERE = filter AND
`cursorTuple > cursor` (`mkGT`, irrespective of the direction), ORDER BY as
given, LIMIT bound. -/
def loadNextQ {α : Type} [LinearOrder α] (p : α → Bool) (d : Direction)
    (rows : List α) (cursor : α) (limit : ℕ) : List α :=
  ((sortRowsBy d rows).filter (fun r => p r && decide (cursor < r))).take limit

/-- `loadPrev` (src/Page.mts, lines 195-212): WHERE = filter AND
`cursorTuple < cursor` (`mkLT`), ORDER BY inverted, LIMIT bound. -/
def loadPrevQ {α : Type} [LinearOrder α] (p : α → Bool) (d : Direction)
    (rows : List α) (cursor : α) (limit : ℕ) : List α :=
  ((sortRowsBy (invertDirection d) rows).filter (fun r => p r && decide (r < cursor))).take limit

/-- `countTotal` (src/Page.mts, line 214): rows matching the filter. -/
def countTotalQ {α : Type} (p : α → Bool) (rows : List α) : ℕ :=
  (rows.filter p).length

/-- `countAfter` (src/Page.mts, lines 217-226): filter AND
`cursorTuple > cursor`. -/
def countAfterQ {α : Type} [LinearOrder α] (p : α → Bool) (rows : List α) (cursor : α) : ℕ :=
  (rows.filter (fun r => p r && decide (cursor < r))).length

/-- `countBefore` (src/Page.mts, lines 229-238): filter AND
`cursorTuple < cursor`. -/
def countBeforeQ {α : Type} [LinearOrder α] (p : α → Bool) (rows : List α) (cursor : α) : ℕ :=
  (rows.filter (fun r => p r && decide (r < cursor))).length

/-- Page record returned by `findMany`
(src/unnamed/part_006 `Page`, src/Page.mts lines 27-37). -/
structure PageResult (α : Type) where
  rows : List α
  rowCount : ℕ
  startCursor : Option α
  endCursor : Option α
  itemBeforeCount : ℕ
  itemAfterCount : ℕ
  deriving DecidableEq, Repr

/-- `PageInit` (src/Page.mts, lines 40-71): forward with optional `after`,
or backward with optional `before`. -/
inductive PageInitM (α : Type) where
  | forward (after : Option α) (first : ℕ)
  | backward (before : Option α) (last : ℕ)
  deriving DecidableEq, Repr

/-- Translation of `BetterSqlite3Storage.findMany`
(src/unnamed/part_006 region of BetterSqlite3Storage.mts, lines 1089-1148):
load the page through the planner queries, reverse backward pages into
orderBy direction, then compute `rowCount = countTotal()`,
`itemBeforeCount` (0 for cursor-free forward, else `countBefore(startCursor)`
if rows are nonempty, else `rowCount`) and `itemAfterCount` (symmetric). -/
def findManyM {α : Type} [LinearOrder α] (p : α → Bool) (d : Direction)
    (rows : List α) : PageInitM α → PageResult α
  | .forward after first =>
    let pageRows :=
      match after with
      | none => loadFirstQ p d rows first
      | some c => loadNextQ p d rows c first
    let rowCount := countTotalQ p rows
    let itemBeforeCount :=
      match after with
      | none => 0
      | some _ =>
        match pageRows.head? with
        | some h0 => countBeforeQ p rows h0
        | none => rowCount
    let itemAfterCount :=
      match pageRows.getLast? with
      | some l0 => countAfterQ p rows l0
      | none => rowCount
    { rows := pageRows
      rowCount := rowCount
      startCursor := pageRows.head?
      endCursor := pageRows.getLast?
      itemBeforeCount := itemBeforeCount
      itemAfterCount := itemAfterCount }
  | .backward before last =>
    let loaded :=
      match before with
      | none => loadLastQ p d rows last
      | some c => loadPrevQ p d rows c last
    let pageRows := loaded.reverse
    let rowCount := countTotalQ p rows
    let itemBeforeCount :=
      match pageRows.head? with
      | some h0 => countBeforeQ p rows h0
      | none => rowCount
    let itemAfterCount :=
      match before with
      | none => 0
      | some _ =>
        match pageRows.getLast? with
        | some l0 => countAfterQ p rows l0
        | none => rowCount
    { rows := pageRows
      rowCount := rowCount
      startCursor := pageRows.head?
      endCursor := pageRows.getLast?
      itemBeforeCount := itemBeforeCount
      itemAfterCount := itemAfterCount }

/-- One step of cursor iteration: load the first page, then repeatedly load
the next page from the cursor of the last returned row, stopping at a page
shorter than the limit (the iteration of the repository test "fetches all
users sequentially using cursor pagination" and of spec property 3).
`fuel` bounds the recursion. -/
def paginateGo {α : Type} [LinearOrder α] (p : α → Bool) (d : Direction)
    (rows : List α) (limit : ℕ) : ℕ → Option α → List α
  | 0, _ => []
  | n + 1, c =>
    let page :=
      match c with
      | none => loadFirstQ p d rows limit
      | some cur => loadNextQ p d rows cur limit
    if page.length < limit then page
    else
      match page.getLast? with
      | none => page
      | some last => page ++ paginateGo p d rows limit n (some last)

/-- Full cursor iteration: `loadFirst`, then `loadNext` while full pages
come back. -/
def paginate {α : Type} [LinearOrder α] (p : α → Bool) (d : Direction)
    (rows : List α) (limit : ℕ) : List α :=
  paginateGo p d rows limit (rows.length + 1) none

/-- Claim C2, counterexample: with the uniformly descending orderBy
`[id desc]` over rows `{1, 2, 3}` and limit 2, the iteration returns
`[3, 2, 3]` — row 3 twice and row 1 never — because `loadNext` keeps the
raw `cursorTuple > cursor` predicate while ordering descending. -/
theorem C2_counterexample :
    paginate (fun _ => true) Direction.desc [(1 : ℤ), 2, 3] 2 = [3, 2, 3] ∧
    ¬ (paginate (fun _ => true) Direction.desc [(1 : ℤ), 2, 3] 2).Nodup := by
  constructor
  · rfl
  · rw [(rfl : paginate (fun _ => true) Direction.desc [(1 : ℤ), 2, 3] 2 = [3, 2, 3])]
    decide

/-- Claim C3, counterexample: forward page with `after = 1` over the single
matching row `{1}` returns no rows, and the source then sets both
`itemBeforeCount` and `itemAfterCount` to `rowCount`, so
`itemBeforeCount + 0 + itemAfterCount = 2 ≠ 1 = rowCount`. -/
theorem C3_counterexample :
    (findManyM (fun _ => true) Direction.asc [(1 : ℤ)] (.forward (some 1) 1)).itemBeforeCount +
      (findManyM (fun _ => true) Direction.asc [(1 : ℤ)] (.forward (some 1) 1)).rows.length +
      (findManyM (fun _ => true) Direction.asc [(1 : ℤ)] (.forward (some 1) 1)).itemAfterCount
    ≠ (findManyM (fun _ => true) Direction.asc [(1 : ℤ)] (.forward (some 1) 1)).rowCount := by
  decide

/-! ### Sorted-list toolkit for the ascending pagination proofs -/

section SortedToolkit

variable {α : Type} [LinearOrder α]

/-- Ascending sort is sorted. -/
theorem sortAsc_sorted (R : List α) : (sortRowsBy Direction.asc R).Sorted (· ≤ ·) := by
  simpa [sortRowsBy] using List.sorted_insertionSort (fun a b : α => a ≤ b) R

/-- Ascending sort is a permutation of the input. -/
theorem sortAsc_perm (R : List α) : List.Perm (sortRowsBy Direction.asc R) R := by
  simpa [sortRowsBy] using List.perm_insertionSort (fun a b : α => a ≤ b) R

/-- A sorted list without duplicates is strictly sorted. -/
theorem sorted_lt_of_le_nodup {l : List α} (hle : l.Sorted (· ≤ ·)) (hnd : l.Nodup) :
    l.Sorted (· < ·) :=
  (List.Pairwise.and hle hnd).imp (fun h => lt_of_le_of_ne h.1 h.2)

/-- Ascending sort of a duplicate-free list is strictly sorted. -/
theorem sortAsc_sorted_lt {R : List α} (hnd : R.Nodup) :
    (sortRowsBy Direction.asc R).Sorted (· < ·) :=
  sorted_lt_of_le_nodup (sortAsc_sorted R) ((sortAsc_perm R).nodup_iff.mpr hnd)

/-- Descending sort equals the reversed ascending sort. -/
theorem sortDesc_eq_reverse_sortAsc (R : List α) :
    sortRowsBy Direction.desc R = (sortRowsBy Direction.asc R).reverse := by
  haveI hTot : IsTotal α (fun a b : α => b ≤ a) := ⟨fun a b => (total_of (· ≤ ·) b a)⟩
  haveI hTrans : IsTrans α (fun a b : α => b ≤ a) := ⟨fun _ _ _ hab hbc => le_trans hbc hab⟩
  haveI hAnti : IsAntisymm α (fun a b : α => b ≤ a) := ⟨fun a b h1 h2 => le_antisymm h2 h1⟩
  apply List.eq_of_perm_of_sorted (r := fun a b : α => b ≤ a)
  · exact ((List.perm_insertionSort _ R).trans (sortAsc_perm R).symm).trans
      (List.reverse_perm _).symm
  · simpa [sortRowsBy] using List.sorted_insertionSort (fun a b : α => b ≤ a) R
  · exact (List.pairwise_reverse).mpr ((sortAsc_sorted R).imp (fun h => h))

/-- In a strictly sorted list every element is at most the last one. -/
theorem sorted_le_getLast {l : List α} (hs : l.Sorted (· < ·)) {x : α} (hx : x ∈ l)
    (h : l ≠ []) : x ≤ l.getLast h := by
  induction l with
  | nil => exact absurd rfl h
  | cons a t ih =>
    cases t with
    | nil =>
      simp only [List.mem_singleton] at hx
      simp [hx, List.getLast]
    | cons b t2 =>
      rw [List.getLast_cons (by simp)]
      rcases List.mem_cons.mp hx with rfl | hxt
      · exact le_of_lt (List.rel_of_sorted_cons hs _ (List.getLast_mem _))
      · exact ih (List.Sorted.of_cons hs) hxt (by simp)

/-- In a strictly sorted list every element is at least the head. -/
theorem sorted_head_le {l : List α} (hs : l.Sorted (· < ·)) {x : α} (hx : x ∈ l)
    (h : l ≠ []) : l.head h ≤ x := by
  cases l with
  | nil => exact absurd rfl h
  | cons a t =>
    rcases List.mem_cons.mp hx with rfl | hxt
    · simp
    · exact le_of_lt (List.rel_of_sorted_cons hs _ hxt)

/-- Filtering a strictly sorted concatenation by "greater than the last
element of the left part" yields exactly the right part. -/
theorem sorted_filter_gt_append {A B : List α} (hs : (A ++ B).Sorted (· < ·))
    (h : A ≠ []) :
    (A ++ B).filter (fun x => decide (A.getLast h < x)) = B := by
  obtain ⟨hA, hB, hAB⟩ := List.pairwise_append.mp hs
  rw [List.filter_append]
  have h1 : A.filter (fun x => decide (A.getLast h < x)) = [] := by
    rw [List.filter_eq_nil_iff]
    intro a ha
    simp only [decide_eq_true_eq]
    exact not_lt_of_ge (sorted_le_getLast hA ha h)
  have h2 : B.filter (fun x => decide (A.getLast h < x)) = B := by
    rw [List.filter_eq_self]
    intro b hb
    simp only [decide_eq_true_eq]
    exact hAB (A.getLast h) (List.getLast_mem h) b hb
  rw [h1, h2, List.nil_append]

/-- Filtering a strictly sorted concatenation by "less than the head of the
right part" yields exactly the left part. -/
theorem sorted_filter_lt_append {A B : List α} (hs : (A ++ B).Sorted (· < ·))
    (h : B ≠ []) :
    (A ++ B).filter (fun x => decide (x < B.head h)) = A := by
  obtain ⟨hA, hB, hAB⟩ := List.pairwise_append.mp hs
  rw [List.filter_append]
  have h1 : A.filter (fun x => decide (x < B.head h)) = A := by
    rw [List.filter_eq_self]
    intro a ha
    simp only [decide_eq_true_eq]
    exact hAB a ha (B.head h) (List.head_mem h)
  have h2 : B.filter (fun x => decide (x < B.head h)) = [] := by
    rw [List.filter_eq_nil_iff]
    intro b hb
    simp only [decide_eq_true_eq]
    exact not_lt_of_ge (sorted_head_le hB hb h)
  rw [h1, h2, List.append_nil]

/-- A strictly sorted list splits as its at-most-`c` prefix followed by its
greater-than-`c` suffix. -/
theorem sorted_span_le_gt {l : List α} (hs : l.Sorted (· < ·)) (c : α) :
    l.filter (fun x => decide (x ≤ c)) ++ l.filter (fun x => decide (c < x)) = l := by
  induction l with
  | nil => simp
  | cons a t ih =>
    have hrest := List.rel_of_sorted_cons hs
    by_cases hac : a ≤ c
    · have h0 := ih (List.Sorted.of_cons hs)
      simp only [List.filter_cons]
      rw [show (decide (a ≤ c)) = true by simp [hac],
          show (decide (c < a)) = false by simp [not_lt_of_ge hac]]
      simp [h0]
    · have hca : c < a := lt_of_not_ge hac
      have h1 : (a :: t).filter (fun x => decide (x ≤ c)) = [] := by
        rw [List.filter_eq_nil_iff]
        intro b hb
        simp only [decide_eq_true_eq]
        rcases List.mem_cons.mp hb with rfl | hbt
        · exact not_le_of_gt hca
        · exact not_le_of_gt (hca.trans (hrest b hbt))
      have h2 : (a :: t).filter (fun x => decide (c < x)) = a :: t := by
        rw [List.filter_eq_self]
        intro b hb
        simp only [decide_eq_true_eq]
        rcases List.mem_cons.mp hb with rfl | hbt
        · exact hca
        · exact hca.trans (hrest b hbt)
      rw [h1, h2, List.nil_append]

/-- A strictly sorted list splits as its below-`c` prefix followed by its
at-least-`c` suffix. -/
theorem sorted_span_lt_ge {l : List α} (hs : l.Sorted (· < ·)) (c : α) :
    l.filter (fun x => decide (x < c)) ++ l.filter (fun x => decide (c ≤ x)) = l := by
  induction l with
  | nil => simp
  | cons a t ih =>
    have hrest := List.rel_of_sorted_cons hs
    by_cases hac : a < c
    · have h0 := ih (List.Sorted.of_cons hs)
      simp only [List.filter_cons]
      rw [show (decide (a < c)) = true by simp [hac],
          show (decide (c ≤ a)) = false by simp [not_le_of_gt hac]]
      simp [h0]
    · have hca : c ≤ a := le_of_not_gt hac
      have h1 : (a :: t).filter (fun x => decide (x < c)) = [] := by
        rw [List.filter_eq_nil_iff]
        intro b hb
        simp only [decide_eq_true_eq]
        rcases List.mem_cons.mp hb with rfl | hbt
        · exact not_lt_of_ge hca
        · exact not_lt_of_ge (hca.trans (le_of_lt (hrest b hbt)))
      have h2 : (a :: t).filter (fun x => decide (c ≤ x)) = a :: t := by
        rw [List.filter_eq_self]
        intro b hb
        simp only [decide_eq_true_eq]
        rcases List.mem_cons.mp hb with rfl | hbt
        · exact hca
        · exact hca.trans (le_of_lt (hrest b hbt))
      rw [h1, h2, List.nil_append]

/-- Narrowing a greater-than filter to a larger bound. -/
theorem filter_gt_filter_gt {l : List α} {c c2 : α} (hcc : c < c2) :
    (l.filter (fun x => decide (c < x))).filter (fun x => decide (c2 < x)) =
      l.filter (fun x => decide (c2 < x)) := by
  rw [List.filter_filter]
  apply List.filter_congr
  intro x _
  by_cases h2 : c2 < x
  · simp [h2, hcc.trans h2]
  · simp [h2]

/-- Lengths of a filter agree across a permutation. -/
theorem length_filter_perm {l l2 : List α} (h : List.Perm l l2) (q : α → Bool) :
    (l.filter q).length = (l2.filter q).length :=
  (h.filter q).length_eq

/-- Swapping the conjuncts of a boolean filter. -/
theorem filter_and_comm (l : List α) (p q : α → Bool) :
    l.filter (fun x => p x && q x) = l.filter (fun x => q x && p x) :=
  List.filter_congr (fun x _ => Bool.and_comm (p x) (q x))

/-- The head of a nonempty prefix is the head of the list. -/
theorem head_take {l : List α} {n : ℕ} (h : l.take n ≠ []) :
    (l.take n).head h = l.head (by rintro rfl; simp at h) := by
  cases l with
  | nil => simp at h
  | cons a t =>
    cases n with
    | zero => simp at h
    | succ m => simp [List.take]

end SortedToolkit

/-! ### Ascending pagination: completeness of the cursor iteration -/

section AscendingPagination

variable {α : Type} [LinearOrder α]

/-- `loadNext` in ascending order selects the strictly-greater suffix of the
filtered sorted rows. -/
theorem loadNextQ_asc_eq (p : α → Bool) (R : List α) (c : α) (limit : ℕ) :
    loadNextQ p Direction.asc R c limit
      = (((sortRowsBy Direction.asc R).filter p).filter
          (fun x => decide (c < x))).take limit := by
  unfold loadNextQ
  congr 1
  rw [List.filter_filter]
  exact List.filter_congr (fun x _ => Bool.and_comm (p x) (decide (c < x)))

/-- Specification of the `loadNext` loop in ascending order: starting from
cursor `c` with enough fuel, the iteration returns exactly the matching rows
strictly beyond `c`, in order. -/
theorem paginateGo_spec (p : α → Bool) (R : List α) (limit : ℕ) (hL : 0 < limit)
    (F : List α) (hF : F = (sortRowsBy Direction.asc R).filter p)
    (hs : F.Sorted (· < ·)) :
    ∀ (n : ℕ) (c : α),
      (F.filter (fun x => decide (c < x))).length < n →
      paginateGo p Direction.asc R limit n (some c)
        = F.filter (fun x => decide (c < x)) := by
  intro n
  induction n with
  | zero => intro c hn; exact absurd hn (by omega)
  | succ m ih =>
    intro c hn
    have hpage : loadNextQ p Direction.asc R c limit
        = (F.filter (fun x => decide (c < x))).take limit := by
      rw [loadNextQ_asc_eq, ← hF]
    by_cases hshort : ((F.filter (fun x => decide (c < x))).take limit).length < limit
    · have hDlen : (F.filter (fun x => decide (c < x))).length < limit := by
        have := List.length_take limit (F.filter (fun x => decide (c < x)))
        omega
      have htake : (F.filter (fun x => decide (c < x))).take limit
          = F.filter (fun x => decide (c < x)) :=
        List.take_of_length_le (le_of_lt hDlen)
      simp only [paginateGo, hpage]
      rw [htake, if_pos hDlen]
    · have hDlen : limit ≤ (F.filter (fun x => decide (c < x))).length := by
        have := List.length_take limit (F.filter (fun x => decide (c < x)))
        omega
      have hplen : ((F.filter (fun x => decide (c < x))).take limit).length = limit := by
        rw [List.length_take]; omega
      have hpne : (F.filter (fun x => decide (c < x))).take limit ≠ [] := by
        intro h0
        rw [h0] at hplen
        simp at hplen
        omega
      have hsplit : (F.filter (fun x => decide (c < x))).take limit ++
          (F.filter (fun x => decide (c < x))).drop limit
          = F.filter (fun x => decide (c < x)) :=
        List.take_append_drop limit _
      have hsD : (F.filter (fun x => decide (c < x))).Sorted (· < ·) := hs.filter _
      have hlastq : ((F.filter (fun x => decide (c < x))).take limit).getLast?
          = some (((F.filter (fun x => decide (c < x))).take limit).getLast hpne) :=
        List.getLast?_eq_getLast _ hpne
      have hc2D : ((F.filter (fun x => decide (c < x))).take limit).getLast hpne
          ∈ F.filter (fun x => decide (c < x)) :=
        List.take_subset limit _ (List.getLast_mem hpne)
      have hcc2 : c < ((F.filter (fun x => decide (c < x))).take limit).getLast hpne := by
        have := List.of_mem_filter hc2D
        simpa using this
      have hDfil : (F.filter (fun x => decide (c < x))).filter
            (fun x => decide (((F.filter (fun x => decide (c < x))).take limit).getLast hpne < x))
          = (F.filter (fun x => decide (c < x))).drop limit := by
        have hsplit2 : ((F.filter (fun x => decide (c < x))).take limit ++
            (F.filter (fun x => decide (c < x))).drop limit).Sorted (· < ·) := by
          rw [hsplit]; exact hsD
        have hmain := sorted_filter_gt_append hsplit2 hpne
        rw [hsplit] at hmain
        exact hmain
      have hFfil : F.filter
            (fun x => decide (((F.filter (fun x => decide (c < x))).take limit).getLast hpne < x))
          = (F.filter (fun x => decide (c < x))).drop limit := by
        rw [← hDfil, filter_gt_filter_gt hcc2]
      have hrec : paginateGo p Direction.asc R limit m
            (some (((F.filter (fun x => decide (c < x))).take limit).getLast hpne))
          = (F.filter (fun x => decide (c < x))).drop limit := by
        have hlen2 : (F.filter
            (fun x => decide (((F.filter (fun x => decide (c < x))).take limit).getLast hpne < x))).length < m := by
          rw [hFfil]
          have hdl := List.length_drop limit (F.filter (fun x => decide (c < x)))
          omega
        rw [ih _ hlen2, hFfil]
      simp only [paginateGo, hpage]
      rw [if_neg hshort, hlastq]
      show List.take limit (List.filter (fun x => decide (c < x)) F) ++
          paginateGo p Direction.asc R limit m
            (some ((List.take limit (List.filter (fun x => decide (c < x)) F)).getLast hpne))
          = List.filter (fun x => decide (c < x)) F
      rw [hrec, hsplit]

/-- Claim C2 (amended): for a duplicate-free row set, a positive limit and
uniformly ascending order, iterating `loadFirst` then `loadNext` from the
cursor of the last returned row visits exactly the matching rows, each once,
in orderBy order (the result is the sorted filtered list, a permutation of
the matching rows).  For descending order the iteration is incorrect
(see the counterexample). -/
theorem C2_pagination_completeness (p : α → Bool) (R : List α) (limit : ℕ)
    (hnd : R.Nodup) (hL : 0 < limit) :
    paginate p Direction.asc R limit = (sortRowsBy Direction.asc R).filter p ∧
    List.Perm (paginate p Direction.asc R limit) (R.filter p) := by
  have hs : ((sortRowsBy Direction.asc R).filter p).Sorted (· < ·) :=
    (sortAsc_sorted_lt hnd).filter _
  have hFR : ((sortRowsBy Direction.asc R).filter p).length ≤ R.length := by
    calc ((sortRowsBy Direction.asc R).filter p).length
        ≤ (sortRowsBy Direction.asc R).length := List.length_filter_le _ _
    _ = R.length := (sortAsc_perm R).length_eq
  have hmain : paginate p Direction.asc R limit = (sortRowsBy Direction.asc R).filter p := by
    unfold paginate
    have hpage : loadFirstQ p Direction.asc R limit
        = ((sortRowsBy Direction.asc R).filter p).take limit := rfl
    by_cases hshort : (((sortRowsBy Direction.asc R).filter p).take limit).length < limit
    · have hFlen : ((sortRowsBy Direction.asc R).filter p).length < limit := by
        have := List.length_take limit ((sortRowsBy Direction.asc R).filter p)
        omega
      have htake : ((sortRowsBy Direction.asc R).filter p).take limit
          = (sortRowsBy Direction.asc R).filter p :=
        List.take_of_length_le (le_of_lt hFlen)
      simp only [paginateGo, hpage]
      rw [htake, if_pos hFlen]
    · have hFlen : limit ≤ ((sortRowsBy Direction.asc R).filter p).length := by
        have := List.length_take limit ((sortRowsBy Direction.asc R).filter p)
        omega
      have hplen : (((sortRowsBy Direction.asc R).filter p).take limit).length = limit := by
        rw [List.length_take]; omega
      have hpne : ((sortRowsBy Direction.asc R).filter p).take limit ≠ [] := by
        intro h0
        rw [h0] at hplen
        simp at hplen
        omega
      have hsplit : ((sortRowsBy Direction.asc R).filter p).take limit ++
          ((sortRowsBy Direction.asc R).filter p).drop limit
          = (sortRowsBy Direction.asc R).filter p :=
        List.take_append_drop limit _
      have hlastq : (((sortRowsBy Direction.asc R).filter p).take limit).getLast?
          = some ((((sortRowsBy Direction.asc R).filter p).take limit).getLast hpne) :=
        List.getLast?_eq_getLast _ hpne
      have hFfil : ((sortRowsBy Direction.asc R).filter p).filter
            (fun x => decide ((((sortRowsBy Direction.asc R).filter p).take limit).getLast hpne < x))
          = ((sortRowsBy Direction.asc R).filter p).drop limit := by
        have hsplit2 : (((sortRowsBy Direction.asc R).filter p).take limit ++
            ((sortRowsBy Direction.asc R).filter p).drop limit).Sorted (· < ·) := by
          rw [hsplit]; exact hs
        have hmain2 := sorted_filter_gt_append hsplit2 hpne
        rw [hsplit] at hmain2
        exact hmain2
      have hrec : paginateGo p Direction.asc R limit R.length
            (some ((((sortRowsBy Direction.asc R).filter p).take limit).getLast hpne))
          = ((sortRowsBy Direction.asc R).filter p).drop limit := by
        have hlen2 : (((sortRowsBy Direction.asc R).filter p).filter
            (fun x => decide ((((sortRowsBy Direction.asc R).filter p).take limit).getLast hpne < x))).length < R.length := by
          rw [hFfil]
          have hdl := List.length_drop limit ((sortRowsBy Direction.asc R).filter p)
          omega
        rw [paginateGo_spec p R limit hL _ rfl hs R.length _ hlen2, hFfil]
      simp only [paginateGo, hpage]
      rw [if_neg hshort, hlastq]
      show List.take limit ((sortRowsBy Direction.asc R).filter p) ++
          paginateGo p Direction.asc R limit R.length
            (some ((((sortRowsBy Direction.asc R).filter p).take limit).getLast hpne))
          = (sortRowsBy Direction.asc R).filter p
      rw [hrec, hsplit]
  refine ⟨hmain, ?_⟩
  rw [hmain]
  exact (sortAsc_perm R).filter p

/-- Witness for C2: ascending iteration over `{2, 1, 3}` with limit 2
returns `[1, 2, 3]`. -/
theorem C2_pagination_completeness_witness :
    paginate (fun _ => true) Direction.asc [(2 : ℤ), 1, 3] 2 = [1, 2, 3] := by
  have h := (C2_pagination_completeness (fun _ => true) [(2 : ℤ), 1, 3] 2
    (by decide) (by decide)).1
  rw [h]
  rfl

end AscendingPagination

/-! ### Page accounting in ascending order -/

section PageAccounting

variable {α : Type} [LinearOrder α]

/-- Merging the planner conjunction `filter AND tuple > cursor` into two
filter passes. -/
theorem filter_p_gt_eq (p : α → Bool) (R : List α) (c : α) :
    (sortRowsBy Direction.asc R).filter (fun r => p r && decide (c < r))
      = ((sortRowsBy Direction.asc R).filter p).filter (fun x => decide (c < x)) := by
  rw [List.filter_filter]
  exact List.filter_congr (fun x _ => Bool.and_comm (p x) (decide (c < x)))

/-- Merging the planner conjunction `filter AND tuple < cursor` into two
filter passes. -/
theorem filter_p_lt_eq (p : α → Bool) (R : List α) (c : α) :
    (sortRowsBy Direction.asc R).filter (fun r => p r && decide (r < c))
      = ((sortRowsBy Direction.asc R).filter p).filter (fun x => decide (x < c)) := by
  rw [List.filter_filter]
  exact List.filter_congr (fun x _ => Bool.and_comm (p x) (decide (x < c)))

/-- `countTotal` counts the filtered sorted rows. -/
theorem countTotalQ_eq (p : α → Bool) (R : List α) :
    countTotalQ p R = ((sortRowsBy Direction.asc R).filter p).length :=
  length_filter_perm (sortAsc_perm R).symm p

/-- `countAfter` counts the matching rows strictly beyond the cursor. -/
theorem countAfterQ_eq (p : α → Bool) (R : List α) (c : α) :
    countAfterQ p R c
      = (((sortRowsBy Direction.asc R).filter p).filter (fun x => decide (c < x))).length := by
  unfold countAfterQ
  rw [length_filter_perm (sortAsc_perm R).symm, filter_p_gt_eq]

/-- `countBefore` counts the matching rows strictly before the cursor. -/
theorem countBeforeQ_eq (p : α → Bool) (R : List α) (c : α) :
    countBeforeQ p R c
      = (((sortRowsBy Direction.asc R).filter p).filter (fun x => decide (x < c))).length := by
  unfold countBeforeQ
  rw [length_filter_perm (sortAsc_perm R).symm, filter_p_lt_eq]

/-- Reversing a backward `loadLast` page yields a suffix of the matching
rows in ascending order. -/
theorem loadLastQ_asc_rows (p : α → Bool) (R : List α) (last : ℕ) :
    (loadLastQ p Direction.asc R last).reverse
      = ((sortRowsBy Direction.asc R).filter p).drop
          (((sortRowsBy Direction.asc R).filter p).length - last) := by
  unfold loadLastQ
  have h1 : matchingRows p (invertDirection Direction.asc) R
      = ((sortRowsBy Direction.asc R).filter p).reverse := by
    unfold matchingRows
    rw [show invertDirection Direction.asc = Direction.desc from rfl,
      sortDesc_eq_reverse_sortAsc, List.filter_reverse]
  rw [h1, List.take_reverse, List.reverse_reverse]

/-- Reversing a backward `loadPrev` page yields a suffix of the matching
rows strictly before the cursor, in ascending order. -/
theorem loadPrevQ_asc_rows (p : α → Bool) (R : List α) (c : α) (last : ℕ) :
    (loadPrevQ p Direction.asc R c last).reverse
      = (((sortRowsBy Direction.asc R).filter p).filter (fun x => decide (x < c))).drop
          ((((sortRowsBy Direction.asc R).filter p).filter (fun x => decide (x < c))).length
            - last) := by
  unfold loadPrevQ
  have h1 : (sortRowsBy (invertDirection Direction.asc) R).filter
        (fun r => p r && decide (r < c))
      = (((sortRowsBy Direction.asc R).filter p).filter
          (fun x => decide (x < c))).reverse := by
    rw [show invertDirection Direction.asc = Direction.desc from rfl,
      sortDesc_eq_reverse_sortAsc, List.filter_reverse, filter_p_lt_eq]
  rw [h1, List.take_reverse, List.reverse_reverse]

/-- The last element of a nonempty suffix is the last element of the list. -/
theorem getLast_drop {l : List α} {n : ℕ} (h : l.drop n ≠ []) :
    (l.drop n).getLast h = l.getLast (by intro h0; rw [h0] at h; simp at h) := by
  have hl : l ≠ [] := by intro h0; rw [h0] at h; simp at h
  have e1 : (l.drop n).getLast? = some ((l.drop n).getLast h) := List.getLast?_eq_getLast _ h
  have e2 : l.getLast? = some (l.getLast hl) := List.getLast?_eq_getLast _ hl
  have e3 : (l.drop n).getLast? = l.getLast? := by
    conv_rhs => rw [← List.take_append_drop n l]
    rw [List.getLast?_append_of_ne_nil _ h]
  rw [e1, e2] at e3
  exact Option.some.inj e3

/-- Whether a `PageInit` carries a cursor (`after` or `before`). -/
def PageInitM.hasCursor {α : Type} : PageInitM α → Bool
  | .forward (some _) _ => true
  | .backward (some _) _ => true
  | .forward none _ => false
  | .backward none _ => false

end PageAccounting

section PageAccountingMain

variable {α : Type} [LinearOrder α]

/-- Claim C3 (amended): with uniformly ascending order over a duplicate-free
row set, `itemBeforeCount + length rows + itemAfterCount = rowCount` holds
whenever the returned page is nonempty, or the call carried no cursor, or no
row matches the filter; when a cursor is supplied, the page comes back empty
and matching rows exist, both counts are set to `rowCount` and the identity
fails (see the counterexample). -/
theorem C3_page_accounting (p : α → Bool) (R : List α) (init : PageInitM α) (hnd : R.Nodup)
    (hok : (findManyM p Direction.asc R init).rows ≠ [] ∨ init.hasCursor = false ∨
           (findManyM p Direction.asc R init).rowCount = 0) :
    (findManyM p Direction.asc R init).itemBeforeCount
      + (findManyM p Direction.asc R init).rows.length
      + (findManyM p Direction.asc R init).itemAfterCount
      = (findManyM p Direction.asc R init).rowCount := by
  have hs : ((sortRowsBy Direction.asc R).filter p).Sorted (· < ·) :=
    (sortAsc_sorted_lt hnd).filter _
  cases init with
  | forward after first =>
    cases after with
    | none =>
      simp only [findManyM, loadFirstQ, matchingRows] at hok ⊢
      by_cases hrows : ((sortRowsBy Direction.asc R).filter p).take first = []
      · simp [hrows]
      · have hlast := List.getLast?_eq_getLast _ hrows
        simp only [hlast, countAfterQ_eq, countTotalQ_eq]
        have hsplit : ((sortRowsBy Direction.asc R).filter p).take first ++
            ((sortRowsBy Direction.asc R).filter p).drop first
            = (sortRowsBy Direction.asc R).filter p :=
          List.take_append_drop first _
        have hsAB : (((sortRowsBy Direction.asc R).filter p).take first ++
            ((sortRowsBy Direction.asc R).filter p).drop first).Sorted (· < ·) := by
          rw [hsplit]; exact hs
        have key := sorted_filter_gt_append hsAB hrows
        rw [hsplit] at key
        rw [key]
        have h1 := List.length_take first ((sortRowsBy Direction.asc R).filter p)
        have h2 := List.length_drop first ((sortRowsBy Direction.asc R).filter p)
        omega
    | some c =>
      simp only [findManyM, PageInitM.hasCursor] at hok ⊢
      rw [loadNextQ_asc_eq] at hok ⊢
      by_cases hrows : (((sortRowsBy Direction.asc R).filter p).filter
          (fun x => decide (c < x))).take first = []
      · have hc0 : countTotalQ p R = 0 := by
          rcases hok with h | h | h
          · exact absurd hrows h
          · exact absurd h (by simp)
          · exact h
        have hF0 : (sortRowsBy Direction.asc R).filter p = [] := by
          rw [countTotalQ_eq] at hc0
          exact List.length_eq_zero.mp hc0
        simp [hrows, hF0, hc0]
      · have hDne : ((sortRowsBy Direction.asc R).filter p).filter
            (fun x => decide (c < x)) ≠ [] := by
          intro h0; rw [h0] at hrows; simp at hrows
        have hhead := List.head?_eq_head hrows
        have hlast := List.getLast?_eq_getLast _ hrows
        simp only [hhead, hlast, countAfterQ_eq, countBeforeQ_eq, countTotalQ_eq]
        have hsD : (((sortRowsBy Direction.asc R).filter p).filter
            (fun x => decide (c < x))).Sorted (· < ·) := hs.filter _
        have hspan := sorted_span_le_gt hs c
        have hheadD : ((((sortRowsBy Direction.asc R).filter p).filter
              (fun x => decide (c < x))).take first).head hrows
            = (((sortRowsBy Direction.asc R).filter p).filter
              (fun x => decide (c < x))).head hDne := head_take hrows
        have hsPD : (((sortRowsBy Direction.asc R).filter p).filter (fun x => decide (x ≤ c)) ++
            ((sortRowsBy Direction.asc R).filter p).filter (fun x => decide (c < x))).Sorted
              (· < ·) := by
          rw [hspan]; exact hs
        have hbefore := sorted_filter_lt_append hsPD hDne
        rw [hspan] at hbefore
        -- itemAfterCount
        have hsplitD : (((sortRowsBy Direction.asc R).filter p).filter
              (fun x => decide (c < x))).take first ++
            (((sortRowsBy Direction.asc R).filter p).filter
              (fun x => decide (c < x))).drop first
            = ((sortRowsBy Direction.asc R).filter p).filter (fun x => decide (c < x)) :=
          List.take_append_drop first _
        have hsAB : ((((sortRowsBy Direction.asc R).filter p).filter
              (fun x => decide (c < x))).take first ++
            (((sortRowsBy Direction.asc R).filter p).filter
              (fun x => decide (c < x))).drop first).Sorted (· < ·) := by
          rw [hsplitD]; exact hsD
        have hafterD := sorted_filter_gt_append hsAB hrows
        rw [hsplitD] at hafterD
        have hc2mem : ((((sortRowsBy Direction.asc R).filter p).filter
              (fun x => decide (c < x))).take first).getLast hrows
            ∈ ((sortRowsBy Direction.asc R).filter p).filter (fun x => decide (c < x)) :=
          List.take_subset first _ (List.getLast_mem hrows)
        have hcc2 : c < ((((sortRowsBy Direction.asc R).filter p).filter
            (fun x => decide (c < x))).take first).getLast hrows := by
          have := List.of_mem_filter hc2mem
          simpa using this
        have hafter : ((sortRowsBy Direction.asc R).filter p).filter
              (fun x => decide (((((sortRowsBy Direction.asc R).filter p).filter
                (fun x => decide (c < x))).take first).getLast hrows < x))
            = (((sortRowsBy Direction.asc R).filter p).filter
                (fun x => decide (c < x))).drop first := by
          rw [← hafterD, filter_gt_filter_gt hcc2]
        rw [hheadD, hbefore, hafter]
        have l1 := congrArg List.length hspan
        rw [List.length_append] at l1
        have l2 := List.length_take first (((sortRowsBy Direction.asc R).filter p).filter
          (fun x => decide (c < x)))
        have l3 := List.length_drop first (((sortRowsBy Direction.asc R).filter p).filter
          (fun x => decide (c < x)))
        omega
  | backward before last =>
    cases before with
    | none =>
      simp only [findManyM] at hok ⊢
      rw [loadLastQ_asc_rows] at hok ⊢
      by_cases hrows : ((sortRowsBy Direction.asc R).filter p).drop
          (((sortRowsBy Direction.asc R).filter p).length - last) = []
      · simp [hrows]
      · have hhead := List.head?_eq_head hrows
        simp only [hhead, countBeforeQ_eq, countTotalQ_eq]
        have hsplit : ((sortRowsBy Direction.asc R).filter p).take
              (((sortRowsBy Direction.asc R).filter p).length - last) ++
            ((sortRowsBy Direction.asc R).filter p).drop
              (((sortRowsBy Direction.asc R).filter p).length - last)
            = (sortRowsBy Direction.asc R).filter p :=
          List.take_append_drop _ _
        have hsAB : (((sortRowsBy Direction.asc R).filter p).take
              (((sortRowsBy Direction.asc R).filter p).length - last) ++
            ((sortRowsBy Direction.asc R).filter p).drop
              (((sortRowsBy Direction.asc R).filter p).length - last)).Sorted (· < ·) := by
          rw [hsplit]; exact hs
        have hbefore := sorted_filter_lt_append hsAB hrows
        rw [hsplit] at hbefore
        rw [hbefore]
        have l1 := List.length_take (((sortRowsBy Direction.asc R).filter p).length - last)
          ((sortRowsBy Direction.asc R).filter p)
        have l2 := List.length_drop (((sortRowsBy Direction.asc R).filter p).length - last)
          ((sortRowsBy Direction.asc R).filter p)
        omega
    | some c =>
      simp only [findManyM, PageInitM.hasCursor] at hok ⊢
      rw [loadPrevQ_asc_rows] at hok ⊢
      by_cases hrows : (((sortRowsBy Direction.asc R).filter p).filter
            (fun x => decide (x < c))).drop
          ((((sortRowsBy Direction.asc R).filter p).filter
            (fun x => decide (x < c))).length - last) = []
      · have hc0 : countTotalQ p R = 0 := by
          rcases hok with h | h | h
          · exact absurd hrows h
          · exact absurd h (by simp)
          · exact h
        have hF0 : (sortRowsBy Direction.asc R).filter p = [] := by
          rw [countTotalQ_eq] at hc0
          exact List.length_eq_zero.mp hc0
        simp [hrows, hF0, hc0]
      · have hEne : ((sortRowsBy Direction.asc R).filter p).filter
            (fun x => decide (x < c)) ≠ [] := by
          intro h0; rw [h0] at hrows; simp at hrows
        have hhead := List.head?_eq_head hrows
        have hlast := List.getLast?_eq_getLast _ hrows
        simp only [hhead, hlast, countAfterQ_eq, countBeforeQ_eq, countTotalQ_eq]
        have hsE : (((sortRowsBy Direction.asc R).filter p).filter
            (fun x => decide (x < c))).Sorted (· < ·) := hs.filter _
        have hspan := sorted_span_lt_ge hs c
        have hsplitE : (((sortRowsBy Direction.asc R).filter p).filter
              (fun x => decide (x < c))).take
              ((((sortRowsBy Direction.asc R).filter p).filter
                (fun x => decide (x < c))).length - last) ++
            (((sortRowsBy Direction.asc R).filter p).filter
              (fun x => decide (x < c))).drop
              ((((sortRowsBy Direction.asc R).filter p).filter
                (fun x => decide (x < c))).length - last)
            = ((sortRowsBy Direction.asc R).filter p).filter (fun x => decide (x < c)) :=
          List.take_append_drop _ _
        have hsAB : ((((sortRowsBy Direction.asc R).filter p).filter
              (fun x => decide (x < c))).take
              ((((sortRowsBy Direction.asc R).filter p).filter
                (fun x => decide (x < c))).length - last) ++
            (((sortRowsBy Direction.asc R).filter p).filter
              (fun x => decide (x < c))).drop
              ((((sortRowsBy Direction.asc R).filter p).filter
                (fun x => decide (x < c))).length - last)).Sorted (· < ·) := by
          rw [hsplitE]; exact hsE
        have hbeforeE := sorted_filter_lt_append hsAB hrows
        rw [hsplitE] at hbeforeE
        have hheadmem : ((((sortRowsBy Direction.asc R).filter p).filter
              (fun x => decide (x < c))).drop
              ((((sortRowsBy Direction.asc R).filter p).filter
                (fun x => decide (x < c))).length - last)).head hrows
            ∈ ((sortRowsBy Direction.asc R).filter p).filter (fun x => decide (x < c)) :=
          List.drop_subset _ _ (List.head_mem hrows)
        have hheadlt : ((((sortRowsBy Direction.asc R).filter p).filter
              (fun x => decide (x < c))).drop
              ((((sortRowsBy Direction.asc R).filter p).filter
                (fun x => decide (x < c))).length - last)).head hrows < c := by
          have := List.of_mem_filter hheadmem
          simpa using this
        have hlastE : ((((sortRowsBy Direction.asc R).filter p).filter
              (fun x => decide (x < c))).drop
              ((((sortRowsBy Direction.asc R).filter p).filter
                (fun x => decide (x < c))).length - last)).getLast hrows
            = (((sortRowsBy Direction.asc R).filter p).filter
              (fun x => decide (x < c))).getLast hEne := getLast_drop hrows
        have hlastltc : (((sortRowsBy Direction.asc R).filter p).filter
            (fun x => decide (x < c))).getLast hEne < c := by
          have := List.of_mem_filter (List.getLast_mem hEne)
          simpa using this
        set h0 := ((((sortRowsBy Direction.asc R).filter p).filter
              (fun x => decide (x < c))).drop
              ((((sortRowsBy Direction.asc R).filter p).filter
                (fun x => decide (x < c))).length - last)).head hrows with hh0
        set l0 := ((((sortRowsBy Direction.asc R).filter p).filter
              (fun x => decide (x < c))).drop
              ((((sortRowsBy Direction.asc R).filter p).filter
                (fun x => decide (x < c))).length - last)).getLast hrows with hl0
        set g0 := (((sortRowsBy Direction.asc R).filter p).filter
            (fun x => decide (x < c))).getLast hEne with hg0
        rw [hlastE]
        have hbefore : ((sortRowsBy Direction.asc R).filter p).filter
              (fun x => decide (x < h0))
            = (((sortRowsBy Direction.asc R).filter p).filter
                (fun x => decide (x < c))).take
                ((((sortRowsBy Direction.asc R).filter p).filter
                  (fun x => decide (x < c))).length - last) := by
          conv_lhs => rw [← hspan]
          rw [List.filter_append]
          have hq : (((sortRowsBy Direction.asc R).filter p).filter
                (fun x => decide (c ≤ x))).filter (fun x => decide (x < h0)) = [] := by
            rw [List.filter_eq_nil_iff]
            intro q hq2
            simp only [decide_eq_true_eq]
            have hcq : c ≤ q := by
              have := List.of_mem_filter hq2
              simpa using this
            exact not_lt_of_ge (le_of_lt (lt_of_lt_of_le hheadlt hcq))
          rw [hbeforeE, hq, List.append_nil]
        have hafterE : (((sortRowsBy Direction.asc R).filter p).filter
              (fun x => decide (x < c))).filter (fun x => decide (g0 < x)) = [] := by
          rw [List.filter_eq_nil_iff]
          intro q hq2
          simp only [decide_eq_true_eq]
          have hle := sorted_le_getLast hsE hq2 hEne
          rw [← hg0] at hle
          exact not_lt_of_ge hle
        have hafter : ((sortRowsBy Direction.asc R).filter p).filter
              (fun x => decide (g0 < x))
            = ((sortRowsBy Direction.asc R).filter p).filter (fun x => decide (c ≤ x)) := by
          conv_lhs => rw [← hspan]
          rw [List.filter_append, hafterE, List.nil_append]
          rw [List.filter_eq_self]
          intro q hq2
          simp only [decide_eq_true_eq]
          have hcq : c ≤ q := by
            have := List.of_mem_filter hq2
            simpa using this
          exact lt_of_lt_of_le hlastltc hcq
        rw [hbefore, hafter]
        have l1 := congrArg List.length hspan
        rw [List.length_append] at l1
        have l2 := List.length_take ((((sortRowsBy Direction.asc R).filter p).filter
          (fun x => decide (x < c))).length - last)
          (((sortRowsBy Direction.asc R).filter p).filter (fun x => decide (x < c)))
        have l3 := List.length_drop ((((sortRowsBy Direction.asc R).filter p).filter
          (fun x => decide (x < c))).length - last)
          (((sortRowsBy Direction.asc R).filter p).filter (fun x => decide (x < c)))
        omega

/-- Witness for C3: the scenario S1-style page — rows `1..6`, forward from
`after = 3` with `first = 2` — satisfies the accounting identity
`2 + 2 + 2 = 6`. -/
theorem C3_page_accounting_witness :
    (findManyM (fun _ => true) Direction.asc [(1 : ℤ), 2, 3, 4, 5, 6]
        (.forward (some 3) 2)).itemBeforeCount
      + (findManyM (fun _ => true) Direction.asc [(1 : ℤ), 2, 3, 4, 5, 6]
        (.forward (some 3) 2)).rows.length
      + (findManyM (fun _ => true) Direction.asc [(1 : ℤ), 2, 3, 4, 5, 6]
        (.forward (some 3) 2)).itemAfterCount
      = (findManyM (fun _ => true) Direction.asc [(1 : ℤ), 2, 3, 4, 5, 6]
        (.forward (some 3) 2)).rowCount :=
  C3_page_accounting (fun _ => true) [(1 : ℤ), 2, 3, 4, 5, 6] (.forward (some 3) 2)
    (by decide) (Or.inl (by decide))

end PageAccountingMain

/-! ## Reactive Table (src/Table.mts, createDynamic of src/unnamed/part_024)
and the better-sqlite3 mutation path -/

/-- A row as an association record from column name to scalar (scalars
restricted to integers, enough for the mutation path). -/
abbrev RowR := List (String × Int)

/-- JS object spread `{ ...a, ...b }`: the keys of `a` (values overridden by
`b` where present) followed by the keys of `b` absent from `a`. -/
def jsMerge (a b : RowR) : RowR :=
  a.map (fun kv => (kv.1, (b.lookup kv.1).getD kv.2)) ++
    b.filter (fun kv => (a.lookup kv.1).isNone)

/-- Spread with a possibly-null left operand: `{ ...row!, ...partial }`
contributes nothing from a null `row`. -/
def jsMergeOpt : Option RowR → RowR → RowR
  | none, pr => pr
  | some r, pr => jsMerge r pr

/-- A `TableEvent` arriving on the partition substream of one key
(src/types `TableEvent`, routed by key in `Table.findUnique`). -/
inductive RowEvent where
  | insert (row : RowR)
  | update (partialRow : RowR)
  | delete
  deriving DecidableEq

/-- The per-event snapshot computed by the `map` closure inside
`Table.findUnique` (src/Table.mts, lines 62-73; src/unnamed/part_023, lines
132-144): insert installs the event row, update spreads the partial row over
the `row` captured when the Dynamic was created (not over the current
snapshot), delete yields null. -/
def findUniqueStep (row0 : Option RowR) : RowEvent → Option RowR
  | .insert r => some r
  | .update pr => some (jsMergeOpt row0 pr)
  | .delete => none

/-- `createDynamic` stores each upstream `newValue` as the current value
(src/unnamed/part_024, lines 105-121), so after a sequence of events
`read()` returns the last mapped snapshot (or the initial row). -/
def findUniqueRead (row0 : Option RowR) (events : List RowEvent) : Option RowR :=
  events.foldl (fun _ e => findUniqueStep row0 e) row0

/-- Evolution of the stored row under the storage mutations that accompany
the events: insert stores the row, update merges the changes into the stored
row (SQL `UPDATE ... SET`), delete removes it. -/
def storageApply (s : Option RowR) : RowEvent → Option RowR
  | .insert r => some r
  | .update pr =>
    match s with
    | some r => some (jsMerge r pr)
    | none => none
  | .delete => none

/-- The stored row after a sequence of mutations; a fresh `findUnique`
returns exactly this row. -/
def storageRun (s : Option RowR) (events : List RowEvent) : Option RowR :=
  events.foldl storageApply s

/-- The C1 failing input: the row `id = 1, a = 1, b = 1` loaded at Dynamic
creation. -/
def c1row0 : RowR := [(("id"), 1), (("a"), 1), (("b"), 1)]

/-- The C1 failing input: two successive partial updates. -/
def c1events : List RowEvent := [RowEvent.update [(("a"), 2)], RowEvent.update [(("b"), 3)]]

/-- Claim C1 is right and the code is wrong: after two successive updates
the snapshot of the Dynamic merges the second partial row into the row captured
at creation time, losing the first update, while a fresh `findUnique`
returns the accumulated row — `dyn.read()` no longer equals the stored
row. -/
theorem C1_dynamic_fold_code_bug :
    findUniqueRead (some c1row0) c1events ≠ storageRun (some c1row0) c1events ∧
    findUniqueRead (some c1row0) c1events
      = some [(("id"), 1), (("a"), 1), (("b"), 3)] ∧
    storageRun (some c1row0) c1events
      = some [(("id"), 1), (("a"), 2), (("b"), 3)] := by
  refine ⟨?_, rfl, rfl⟩
  decide

/-! ## `partitionByKey` (src/util/partitionByKey.mts) under the identity
projection used by `Table` -/

/-- Events observed on the key-change stream, with the terminal error and
completion notifications made explicit. -/
inductive KeyChangeEvent (K : Type) where
  | add (k : K)
  | remove (k : K)
  | err
  | done
  deriving DecidableEq

/-- Whether a key-change event is a `remove`. -/
def isRemoveEvent {K : Type} : KeyChangeEvent K → Bool
  | .remove _ => true
  | _ => false

/-- How the upstream of the partitioner ends. -/
inductive UpstreamEnd where
  | uerr
  | ucomplete
  | uopen
  deriving DecidableEq

/-- Value handling of `partitionByKey` (src/util/partitionByKey.mts, lines
77-146) with the identity projection: the first value of a new key creates
its group and emits an `add`; later values of an alive key flow into the
existing group without a key change.  Returns the alive keys in creation
order and the emitted key changes. -/
def pbkProcess {K : Type} [DecidableEq K] (alive : List K) :
    List K → List K × List (KeyChangeEvent K)
  | [] => (alive, [])
  | k :: ks =>
    if k ∈ alive then pbkProcess alive ks
    else
      let (a2, out) := pbkProcess (alive ++ [k]) ks
      (a2, KeyChangeEvent.add k :: out)

/-- Termination handling of `partitionByKey` (src/util/partitionByKey.mts,
lines 63-75 `finalize` and 125-143): on upstream completion each alive
source of each alive group completes, its completion handler deletes the group and
emits a `remove`, and the last one completes the subscriber; on upstream
error the source of each alive group errors, the identity projection propagates
it, and the error handler of the group forwards `subscriber.error(e)` directly —
no `remove` is emitted; with no alive group the subscriber ends at once. -/
def pbkFinalize {K : Type} (alive : List K) : UpstreamEnd → List (KeyChangeEvent K)
  | .uerr => [KeyChangeEvent.err]
  | .ucomplete =>
    if alive.isEmpty then [KeyChangeEvent.done]
    else alive.map KeyChangeEvent.remove ++ [KeyChangeEvent.done]
  | .uopen => []

/-- The full key-change log of a partitioner run over the given upstream
values followed by the given upstream termination. -/
def keyChangeLog {K : Type} [DecidableEq K] (vals : List K) (t : UpstreamEnd) :
    List (KeyChangeEvent K) :=
  let (alive, out) := pbkProcess [] vals
  out ++ pbkFinalize alive t

/-- Claim C8, counterexample: one value arrives for key `a` and then the
upstream errors; the group propagates the error, yet the key-change log is
`[add a, err]` — no synthetic `remove` precedes the forwarded error. -/
theorem C8_counterexample :
    keyChangeLog [("a")] UpstreamEnd.uerr
      = [KeyChangeEvent.add ("a"), KeyChangeEvent.err] ∧
    KeyChangeEvent.remove ("a") ∉ keyChangeLog [("a")] UpstreamEnd.uerr := by
  refine ⟨rfl, ?_⟩
  decide

/-- The processing phase emits only `add` events. -/
theorem pbkProcess_no_remove {K : Type} [DecidableEq K] (vals : List K) :
    ∀ alive : List K, ((pbkProcess alive vals).2).countP isRemoveEvent = 0 := by
  induction vals with
  | nil => intro alive; simp [pbkProcess]
  | cons k ks ih =>
    intro alive
    by_cases hk : k ∈ alive
    · simp [pbkProcess, hk, ih alive]
    · simp [pbkProcess, hk, List.countP_cons, isRemoveEvent, ih (alive ++ [k])]

/-- Claim C8 (amended): when the upstream errors and the groups propagate
it, the partitioner forwards the error as the final event of the key-change
log and emits no synthetic `remove` for any alive group. -/
theorem C8_error_forwards_without_remove {K : Type} [DecidableEq K] (vals : List K) :
    (keyChangeLog vals UpstreamEnd.uerr).countP isRemoveEvent = 0 ∧
    (keyChangeLog vals UpstreamEnd.uerr).getLast? = some KeyChangeEvent.err := by
  unfold keyChangeLog
  constructor
  · rw [List.countP_append]
    rw [pbkProcess_no_remove vals []]
    simp [pbkFinalize, isRemoveEvent]
  · rw [List.getLast?_append_of_ne_nil _ (by simp [pbkFinalize])]
    simp [pbkFinalize]

/-! ## Storage mutations and `mutateMany`
(src/storages/better-sqlite3/BetterSqlite3Storage.mts) -/

/-- The stored table: an association list from primary key to row. -/
abbrev DBR := List (Int × RowR)

/-- `insert`: the backend raises a constraint violation on a duplicate
primary key, otherwise appends the row. -/
def storageInsertRow (db : DBR) (k : Int) (r : RowR) : Except String DBR :=
  if (db.lookup k).isSome then .error ("UNIQUE constraint failed")
  else .ok (db ++ [(k, r)])

/-- `upsert`: insert, or on primary-key conflict update the stored row with
the new values (`ON CONFLICT ... DO UPDATE SET`). -/
def storageUpsertRow (db : DBR) (k : Int) (r : RowR) : Except String DBR :=
  if (db.lookup k).isSome then
    .ok (db.map (fun kv => if kv.1 == k then (kv.1, jsMerge kv.2 r) else kv))
  else .ok (db ++ [(k, r)])

/-- `update`: merge the changed columns into the row with the given key; a
missing row is a silent no-op. -/
def storageUpdateRow (db : DBR) (k : Int) (pr : RowR) : Except String DBR :=
  .ok (db.map (fun kv => if kv.1 == k then (kv.1, jsMerge kv.2 pr) else kv))

/-- `delete`: remove the row with the given key; a missing row is a silent
no-op. -/
def storageDeleteRow (db : DBR) (k : Int) : Except String DBR :=
  .ok (db.filter (fun kv => ! (kv.1 == k)))

/-- The `TableEvent` batch published by one Table mutation. -/
inductive TableEventK where
  | insert (key : Int) (row : RowR)
  | update (key : Int) (partialRow : RowR)
  | delete (key : Int)
  deriving DecidableEq

/-- `Table.insert` (src/Table.mts, lines 30-33): run the storage insert,
then publish the event batch; a storage error propagates before any event
is emitted. -/
def tableInsert (db : DBR) (k : Int) (r : RowR) :
    Except String DBR × List TableEventK :=
  match storageInsertRow db k r with
  | .ok db2 => (.ok db2, [TableEventK.insert k r])
  | .error e => (.error e, [])

/-- `Table.update` (src/Table.mts, lines 37-43): storage first, then the
event. -/
def tableUpdate (db : DBR) (k : Int) (pr : RowR) :
    Except String DBR × List TableEventK :=
  match storageUpdateRow db k pr with
  | .ok db2 => (.ok db2, [TableEventK.update k pr])
  | .error e => (.error e, [])

/-- `Table.delete` (src/Table.mts, lines 44-47): storage first, then the
event. -/
def tableDelete (db : DBR) (k : Int) :
    Except String DBR × List TableEventK :=
  match storageDeleteRow db k with
  | .ok db2 => (.ok db2, [TableEventK.delete k])
  | .error e => (.error e, [])

/-- Claim C10: each Table mutation publishes its `TableEvent` exactly when
the storage call returned successfully; a storage error propagates
unchanged with no event emitted. -/
theorem C10_event_after_storage (db : DBR) (k : Int) (r pr : RowR) :
    (∀ e, storageInsertRow db k r = .error e → tableInsert db k r = (.error e, [])) ∧
    (∀ db2, storageInsertRow db k r = .ok db2 →
      tableInsert db k r = (.ok db2, [TableEventK.insert k r])) ∧
    (∀ e, storageUpdateRow db k pr = .error e → tableUpdate db k pr = (.error e, [])) ∧
    (∀ db2, storageUpdateRow db k pr = .ok db2 →
      tableUpdate db k pr = (.ok db2, [TableEventK.update k pr])) ∧
    (∀ e, storageDeleteRow db k = .error e → tableDelete db k = (.error e, [])) ∧
    (∀ db2, storageDeleteRow db k = .ok db2 →
      tableDelete db k = (.ok db2, [TableEventK.delete k])) := by
  refine ⟨fun e he => ?_, fun db2 hok => ?_, fun e he => ?_, fun db2 hok => ?_,
    fun e he => ?_, fun db2 hok => ?_⟩
  · unfold tableInsert; rw [he]
  · unfold tableInsert; rw [hok]
  · unfold tableUpdate; rw [he]
  · unfold tableUpdate; rw [hok]
  · unfold tableDelete; rw [he]
  · unfold tableDelete; rw [hok]

/-- Witness for C10: inserting key 1 twice — the second storage insert
raises the constraint violation and no event is published; the first
publishes exactly its insert event. -/
theorem C10_event_after_storage_witness :
    tableInsert [((1 : Int), [(("id"), 1)])] 1 [(("id"), 1)]
      = (.error ("UNIQUE constraint failed"), []) ∧
    tableInsert [] 1 [(("id"), 1)]
      = (.ok [((1 : Int), [(("id"), 1)])], [TableEventK.insert 1 [(("id"), 1)]]) :=
  ⟨(C10_event_after_storage [((1 : Int), [(("id"), 1)])] 1 [(("id"), 1)] []).1
      ("UNIQUE constraint failed") rfl,
   (C10_event_after_storage [] 1 [(("id"), 1)] []).2.1 [((1 : Int), [(("id"), 1)])] rfl⟩

/-- `Mutation` (src/Storage.mts): the four mutation kinds accepted by
`mutate`. -/
inductive MutationK where
  | insert (key : Int) (row : RowR)
  | upsert (key : Int) (row : RowR)
  | update (key : Int) (partialRow : RowR)
  | delete (key : Int)

/-- `BetterSqlite3Storage.mutate` (lines 1013-1030): dispatch on the
mutation kind. -/
def mutate (db : DBR) : MutationK → Except String DBR
  | .insert k r => storageInsertRow db k r
  | .upsert k r => storageUpsertRow db k r
  | .update k pr => storageUpdateRow db k pr
  | .delete k => storageDeleteRow db k

/-- The `for`-loop body of `mutateMany` (lines 1032-1038): apply the member
mutations sequentially, stopping at the first raised error. -/
def mutateList (db : DBR) : List MutationK → Except String DBR
  | [] => .ok db
  | m :: ms =>
    match mutate db m with
    | .ok db2 => mutateList db2 ms
    | .error e => .error e

/-- Modelled from the spec: the backend `transaction(fn)` contract of §6
(better-sqlite3 is external to src/) — commit the callback effects on
normal return, roll the state back and re-raise on a raised error. -/
def transactionRun (f : DBR → Except String DBR) (db : DBR) :
    Except String Unit × DBR :=
  match f db with
  | .ok db2 => (.ok (), db2)
  | .error e => (.error e, db)

/-- `BetterSqlite3Storage.mutateMany` (lines 1032-1038, identical at lines
81-87): run the member mutations inside a single backend transaction. -/
def mutateMany (db : DBR) (ms : List MutationK) : Except String Unit × DBR :=
  transactionRun (fun d => mutateList d ms) db

/-- Claim C9: `mutateMany` is transactional — on normal return the final
state is the sequential application of every member mutation; if any member
raises, the error is re-raised and the state is rolled back to the initial
one, so no member effect remains visible. -/
theorem C9_mutateMany_transactional (db : DBR) (ms : List MutationK) :
    (∀ db2, mutateList db ms = .ok db2 → mutateMany db ms = (.ok (), db2)) ∧
    (∀ e, mutateList db ms = .error e → mutateMany db ms = (.error e, db)) := by
  constructor
  · intro db2 hok
    unfold mutateMany transactionRun
    simp only [hok]
  · intro e herr
    unfold mutateMany transactionRun
    simp only [herr]

/-- Witness for C9: a batch whose second insert conflicts rolls back to the
empty table and re-raises; a successful batch commits both inserts. -/
theorem C9_mutateMany_transactional_witness :
    mutateMany [] [MutationK.insert 1 [(("id"), 1)], MutationK.insert 1 [(("id"), 1)]]
      = (.error ("UNIQUE constraint failed"), []) ∧
    mutateMany [] [MutationK.insert 1 [(("id"), 1)], MutationK.insert 2 [(("id"), 2)]]
      = (.ok (), [((1 : Int), [(("id"), 1)]), ((2 : Int), [(("id"), 2)])]) :=
  ⟨(C9_mutateMany_transactional []
      [MutationK.insert 1 [(("id"), 1)], MutationK.insert 1 [(("id"), 1)]]).2
      ("UNIQUE constraint failed") rfl,
   (C9_mutateMany_transactional []
      [MutationK.insert 1 [(("id"), 1)], MutationK.insert 2 [(("id"), 2)]]).1
      [((1 : Int), [(("id"), 1)]), ((2 : Int), [(("id"), 2)])] rfl⟩

end RxTable
